import Mathlib

/-!
Verification development for the lca-matrix repository (lcamatrix package).

The definitions below are a shallow embedding of `src/lcamatrix/background.py`
(the canonical draft of the Tarjan traversal, TarjanStack, ProductFlow,
Emission and BackgroundManager), together with the iterative LCI solver that
`src/lcamatrix/display.py` invokes.  Exchange values are modelled as exact
rationals; Python dictionaries become association lists that preserve
insertion order (CPython 3.7+ semantics); Python sets become duplicate-free
lists recording insertion order; raised exceptions become `Except.error`.
Entity identifiers (uuids) are modelled as naturals.
-/

/-- Exchange direction, relative to the process. -/
inductive Direction where
  | Input : Direction
  | Output : Direction
deriving DecidableEq, Repr

/-- `comp_dir` from lcatools.exchanges: the complementary direction. -/
def comp_dir : Direction → Direction
  | Direction.Input => Direction.Output
  | Direction.Output => Direction.Input

/-- An LcFlow entity: only the uuid and the Name property are consumed by the core. -/
structure LcFlow where
  uuid : Nat
  name : String
deriving DecidableEq, Repr

/-- An exchange of a process: flow, direction, value (may be null), optional
explicit termination (uuid of the terminating process), and whether the
exchange belongs to the reference entity of its process. -/
structure LcExchange where
  flow : LcFlow
  direction : Direction
  value : Option ℚ
  termination : Option Nat
  is_reference : Bool
deriving DecidableEq, Repr

/-- An LcProcess entity: uuid, Name property, its exchange list, and whether it
is allocated with respect to its reference (the archive contract
`is_allocated`, modelled as a flag since allocation itself is external). -/
structure LcProcess where
  uuid : Nat
  name : String
  allocated : Bool
  exchanges : List LcExchange
deriving DecidableEq, Repr

/-- `process.reference_entity`: the reference exchanges of the process. -/
def LcProcess.reference_entity (p : LcProcess) : List LcExchange :=
  p.exchanges.filter (fun x => x.is_reference)

/-- `process.references()`: iterator over reference exchanges. -/
def LcProcess.references (p : LcProcess) : List LcExchange :=
  p.reference_entity

/-- `process.reference(flow)` / `process.find_reference(flow)` from lcatools:
the reference exchange of the process whose flow matches. -/
def LcProcess.findReference (p : LcProcess) (flow : LcFlow) : Option LcExchange :=
  p.reference_entity.find? (fun x => x.flow = flow)

/-- `exch[rx]`: the value of the exchange allocated with respect to the
reference exchange `rx`.  Allocation is performed by the external lcatools
archive; under the archive contract an allocated (or single-reference)
process reports the exchange value itself, which is how it is modelled here. -/
def exchAllocValue (exch _rx : LcExchange) : Option ℚ :=
  exch.value

/-- A product-flow key: (uuid of reference flow, uuid of process or None). -/
abbrev PFKey := Nat × Option Nat

/-- An emission key: (uuid of flow, direction). -/
abbrev EmKey := Nat × Direction

/-- `ProductFlow` from background.py: a matched row-and-column of the interior
matrix.  `key` is the identity hash `(flow.uuid, process.uuid)` and
`inbound_ev` the direction-adjusted reference magnitude. -/
structure ProductFlow where
  index : Nat
  flow : LcFlow
  process : LcProcess
  key : PFKey
  inbound_ev : ℚ
deriving DecidableEq, Repr

/-- `Emission` from background.py: a row of the exterior matrix. -/
structure Emission where
  index : Nat
  flow : LcFlow
  direction : Direction
  key : EmKey
deriving DecidableEq, Repr

/-- `ProductFlow.__init__`.  Returns the constructed product flow and the list
of warning lines printed (`NoMatchingReference`, `None inbound ev`).  If the
process has no reference exchange matching the flow, the key keeps a null
process part and `inbound_ev` stays 1; otherwise `inbound_ev` is the
reference exchange value (tolerating null as 1), negated for Input
references.  A zero reference value passes through silently. -/
def mk_product_flow (index : Nat) (flow : LcFlow) (process : LcProcess) :
    ProductFlow × List String :=
  match process.reference_entity.filter (fun x => x.flow = flow) with
  | [] =>
    ({ index := index, flow := flow, process := process
       key := (flow.uuid, none), inbound_ev := 1 }, ["NoMatchingReference"])
  | rx :: _ =>
    let evWarn : ℚ × List String :=
      match rx.value with
      | none => (1, ["None inbound ev! using 1.0."])
      | some v => (v, [])
    let ev := if rx.direction = Direction.Input then -evWarn.1 else evWarn.1
    ({ index := index, flow := flow, process := process
       key := (flow.uuid, some process.uuid), inbound_ev := ev }, evWarn.2)

/-- Ordering of processes by Name, as used by `sorted(terms, key=lambda x: x.name)`. -/
def byName (a b : LcProcess) : Prop := a.name ≤ b.name

instance : DecidableRel byName := fun a b => inferInstanceAs (Decidable (a.name ≤ b.name))

instance : IsTotal LcProcess byName := ⟨fun a b => le_total a.name b.name⟩

instance : IsTrans LcProcess byName := ⟨fun _ _ _ h1 h2 => le_trans h1 h2⟩

/-- `sorted(terms, key=lambda x: x.name)`: stable sort by process name. -/
def sortedByName (terms : List LcProcess) : List LcProcess :=
  List.insertionSort byName terms

/-- The virtual market process synthesized by the `mix` strategy: a reference
exchange of the complementary direction whose magnitude is the candidate
count, plus one unit exchange per candidate terminated at that candidate.
The fresh uuid is generated by the external entity library (`LcProcess.new`);
it is modelled by a fixed placeholder. -/
def mk_market (exchange : LcExchange) (terms : List LcProcess) : LcProcess :=
  { uuid := 0
    name := "Market for " ++ exchange.flow.name
    allocated := True
    exchanges :=
      { flow := exchange.flow, direction := comp_dir exchange.direction
        value := some (terms.length : ℚ), termination := none, is_reference := true } ::
      terms.map (fun t =>
        { flow := exchange.flow, direction := exchange.direction
          value := some 1, termination := some t.uuid, is_reference := false }) }

/-- `resolve_termination` from background.py lines 36-64. -/
def resolve_termination (exchange : LcExchange) (terms : List LcProcess)
    (strategy : String) : Except String (Option LcProcess) :=
  if terms.length = 1 then Except.ok terms.head?
  else if terms.length = 0 ∨ strategy = "cutoff" then Except.ok none
  else if strategy = "mix" then Except.ok (some (mk_market exchange terms))
  else if strategy = "first" then Except.ok (sortedByName terms).head?
  else if strategy = "last" then Except.ok (sortedByName terms).getLast?
  else Except.error ("Unknown multi-termination strategy " ++ strategy)

/-! ### Association lists and insertion-ordered sets

Python dicts preserve insertion order; sets are modelled as duplicate-free
lists in insertion order (the claims settled below never depend on the
iteration order of a genuine hash set). -/

/-- Dictionary lookup. -/
def alookup {κ β : Type} [DecidableEq κ] : List (κ × β) → κ → Option β
  | [], _ => none
  | (k0, v) :: rest, k => if k0 = k then some v else alookup rest k

/-- Dictionary assignment: update in place, or append a new key at the end. -/
def aupsert {κ β : Type} [DecidableEq κ] : List (κ × β) → κ → β → List (κ × β)
  | [], k, v => [(k, v)]
  | (k0, v0) :: rest, k, v =>
    if k0 = k then (k, v) :: rest else (k0, v0) :: aupsert rest k v

/-- `defaultdict(list)` append: `d[k].append(b)`. -/
def aappendList {κ β : Type} [DecidableEq κ] : List (κ × List β) → κ → β → List (κ × List β)
  | [], k, b => [(k, [b])]
  | (k0, vs) :: rest, k, b =>
    if k0 = k then (k0, vs ++ [b]) :: rest else (k0, vs) :: aappendList rest k b

/-- Insertion-ordered set add. -/
def listAdd {α : Type} [DecidableEq α] (xs : List α) (x : α) : List α :=
  if x ∈ xs then xs else xs ++ [x]

/-- `defaultdict(set)` add: `d[k].add(b)`. -/
def aappendSet {κ β : Type} [DecidableEq κ] [DecidableEq β] :
    List (κ × List β) → κ → β → List (κ × List β)
  | [], k, b => [(k, [b])]
  | (k0, vs) :: rest, k, b =>
    if k0 = k then (k0, listAdd vs b) :: rest else (k0, vs) :: aappendSet rest k b

/-- `defaultdict` read access: a missing key reads as the empty collection. -/
def agetList {κ β : Type} [DecidableEq κ] (l : List (κ × List β)) (k : κ) : List β :=
  (alookup l k).getD []

/-- A sparse-matrix entry destined for the interior (A) matrix:
parent = column, term = row (`MatrixEntry` namedtuple). -/
structure MatrixEntry where
  parent : ProductFlow
  term : ProductFlow
  value : ℚ
deriving DecidableEq, Repr

/-- A sparse-matrix entry destined for the exterior (B) matrix (the source
reuses the same namedtuple with an Emission in the `term` slot). -/
structure CutoffEntry where
  parent : ProductFlow
  term : Emission
  value : ℚ
deriving DecidableEq, Repr

/-! ### TarjanStack (background.py lines 85-260) -/

/-- The Tarjan stack and SCC record.  The Python stack appends and pops at the
end of its list; here the most recent element sits at the head. -/
structure TarjanStack where
  stack : List ProductFlow
  sccs : List (Nat × List ProductFlow)
  scc_of : List (PFKey × Nat)
  cols_by_row : List (Nat × List Nat)
  rows_by_col : List (Nat × List Nat)
  background : Option Nat
  downstream : List Nat
  bg_index : List (Nat × Nat)
deriving DecidableEq, Repr

/-- The empty stack (TarjanStack.__init__). -/
def TarjanStack.init : TarjanStack :=
  { stack := [], sccs := [], scc_of := [], cols_by_row := [], rows_by_col := []
    background := none, downstream := [], bg_index := [] }

/-- `check_stack`: membership in the stack hash (product flows hash by key). -/
def TarjanStack.check_stack (ts : TarjanStack) (pf : ProductFlow) : Bool :=
  ts.stack.any (fun q => q.key = pf.key)

/-- `add_to_stack`: refuses a product flow already on the stack. -/
def TarjanStack.add_to_stack (ts : TarjanStack) (pf : ProductFlow) :
    Except String TarjanStack :=
  if ts.check_stack pf then Except.error ("ProductFlow already in stack")
  else Except.ok { ts with stack := pf :: ts.stack }

/-- Add a member to an SCC set (`self._sccs[index].add(node)`): set semantics
dedupe by the product-flow key. -/
def sccAdd : List (Nat × List ProductFlow) → Nat → ProductFlow → List (Nat × List ProductFlow)
  | [], k, node => [(k, [node])]
  | (k0, vs) :: rest, k, node =>
    if k0 = k then
      (k0, if vs.any (fun q => q.key = node.key) then vs else vs ++ [node]) :: rest
    else (k0, vs) :: sccAdd rest k node

/-- The pop-until-key loop of `label_scc`, acting on (stack, sccs, scc_of).
Popping an empty stack is the Python IndexError. -/
def label_scc_aux (index : Nat) (key : PFKey) :
    List ProductFlow → List (Nat × List ProductFlow) → List (PFKey × Nat) →
    Except String (List ProductFlow × List (Nat × List ProductFlow) × List (PFKey × Nat))
  | [], _, _ => Except.error ("IndexError: pop from empty stack")
  | node :: rest, sccs, sccOf =>
    let sccs1 := sccAdd sccs index node
    let sccOf1 := aupsert sccOf node.key index
    if node.key = key then Except.ok (rest, sccs1, sccOf1)
    else label_scc_aux index key rest sccs1 sccOf1

/-- `label_scc`: pop the stack into SCC `index` until the anchor key appears. -/
def TarjanStack.label_scc (ts : TarjanStack) (index : Nat) (key : PFKey) :
    Except String TarjanStack := do
  let (stack1, sccs1, sccOf1) ← label_scc_aux index key ts.stack ts.sccs ts.scc_of
  Except.ok { ts with stack := stack1, sccs := sccs1, scc_of := sccOf1 }

/-- The scan of `_set_background`: running maximum of SCC sizes with the
strict comparison `len(t) > ml`, so the first entry (in dict insertion
order) attaining the maximum wins. -/
def maxSccLoop : List (Nat × List ProductFlow) → Nat → Option Nat → Nat × Option Nat
  | [], ml, ind => (ml, ind)
  | (i, t) :: rest, ml, ind =>
    if ml < t.length then maxSccLoop rest t.length (some i) else maxSccLoop rest ml ind

/-- One level of the `_set_downstream` depth-first walk over the dependency
list of `upstream`, skipping self-dependencies; `step` recurses into each
dependency after adding it to the accumulated downstream set. -/
def sdFold (step : Nat → List Nat → Except String (List Nat)) (upstream : Nat) :
    List Nat → List Nat → Except String (List Nat)
  | [], ds => Except.ok ds
  | dep :: rest, ds =>
    if dep = upstream then sdFold step upstream rest ds
    else do
      let ds1 ← step dep (listAdd ds dep)
      sdFold step upstream rest ds1

/-- `_set_downstream` from a given upstream node.  The Python code recurses
blindly (no visited set) and relies on the condensation being acyclic; the
fuel models the interpreter recursion limit, whose exhaustion is a
RecursionError. -/
def set_downstream_rec (rows : List (Nat × List Nat)) :
    Nat → Nat → List Nat → Except String (List Nat)
  | 0, _, _ => Except.error ("RecursionError")
  | fuel + 1, upstream, ds =>
    sdFold (fun dep ds1 => set_downstream_rec rows fuel dep ds1) upstream
      (agetList rows upstream) ds

/-- `scc(index)`: members of an SCC (defaultdict: missing key reads empty). -/
def TarjanStack.scc (ts : TarjanStack) (index : Nat) : List ProductFlow :=
  agetList ts.sccs index

/-- `background_flows()`: members of the background SCC, then members of every
downstream SCC, in insertion order. -/
def TarjanStack.background_flows (ts : TarjanStack) : List ProductFlow :=
  match ts.background with
  | none => []
  | some bg => ts.scc bg ++ ts.downstream.flatMap (fun i => ts.scc i)

/-- `_generate_bg_index`: assign consecutive matrix columns to the indices of
the background flows. -/
def TarjanStack.generate_bg_index (ts : TarjanStack) : TarjanStack :=
  match ts.background with
  | none => { ts with bg_index := [] }
  | some _ =>
    let bg := ts.background_flows.map (fun b => b.index)
    { ts with bg_index := bg.enum.map (fun p => (p.2, p.1)) }

/-- `_set_background`: elect the first largest SCC provided its size exceeds 1,
then recompute downstream and the background index.  When no SCC has size
above 1 the state is left untouched. -/
def TarjanStack.set_background (fuel : Nat) (ts : TarjanStack) :
    Except String TarjanStack :=
  if 1 < (maxSccLoop ts.sccs 0 none).1 then
    match (maxSccLoop ts.sccs 0 none).2 with
    | none => Except.error ("unreachable: positive maximum without an index")
    | some bgid =>
      match set_downstream_rec ts.rows_by_col fuel bgid ts.downstream with
      | Except.error e => Except.error e
      | Except.ok ds =>
        Except.ok (TarjanStack.generate_bg_index
          { ts with background := some bgid, downstream := ds })
  else Except.ok ts

/-- `scc_id(pf)`: the SCC of a labelled product flow (KeyError if unlabelled). -/
def TarjanStack.scc_id (ts : TarjanStack) (pf : ProductFlow) : Except String Nat :=
  match alookup ts.scc_of pf.key with
  | some i => Except.ok i
  | none => Except.error ("KeyError: scc_of")

/-- The edge-recording loop of `add_to_graph`: for each pending interior
entry, add the SCC-level edge (column SCC of the parent to row SCC of the
term) to both adjacency maps. -/
def graphEdges : TarjanStack → List MatrixEntry → Except String TarjanStack
  | t, [] => Except.ok t
  | t, i :: rest =>
    match t.scc_id i.term with
    | Except.error e => Except.error e
    | Except.ok row =>
      match t.scc_id i.parent with
      | Except.error e => Except.error e
      | Except.ok col =>
        graphEdges { t with
          cols_by_row := aappendSet t.cols_by_row row col
          rows_by_col := aappendSet t.rows_by_col col row } rest

/-- `add_to_graph`: record the SCC-level edge of every pending interior entry,
then re-run background selection. -/
def TarjanStack.add_to_graph (fuel : Nat) (ts : TarjanStack)
    (interiors : List MatrixEntry) : Except String TarjanStack :=
  match graphEdges ts interiors with
  | Except.error e => Except.error e
  | Except.ok ts1 => ts1.set_background fuel

/-- `ndim`: the dimension of the background. -/
def TarjanStack.ndim (ts : TarjanStack) : Nat := ts.bg_index.length

/-- `is_background(index)`: membership of a product-flow index in `bg_index`. -/
def TarjanStack.is_background (ts : TarjanStack) (index : Nat) : Bool :=
  (alookup ts.bg_index index).isSome

/-- `bg_dict(index)`: the matrix column of a background product-flow index
(KeyError when absent — this is the background.py variant of bg_dict). -/
def TarjanStack.bg_dict (ts : TarjanStack) (index : Nat) : Except String Nat :=
  match alookup ts.bg_index index with
  | some n => Except.ok n
  | none => Except.error ("KeyError: bg_index")

/-! ### BackgroundManager (background.py lines 403-685) -/

/-- The maximum safe interpreter recursion limit accepted at construction. -/
def MAX_SAFE_RECURSION_LIMIT : Nat := 18000

/-- The CPython default recursion limit, in force outside the traversal (it is
what bounds the `_set_downstream` recursion run from `add_to_graph`). -/
def pyRecursionLimit : Nat := 1000

/-- The mutable state of a BackgroundManager.  `warnings` collects the lines
the source prints to stdout. -/
structure BackgroundMgr where
  archive : List LcProcess
  lowlinks : List (PFKey × Nat)
  tstack : TarjanStack
  a_matrix : Option (List (Nat × Nat × ℚ))
  b_matrix : Option (List (Nat × Nat × ℚ))
  terminations : List (EmKey × List (Option LcProcess))
  rec_limit : Nat
  interior_incoming : List MatrixEntry
  interior : List MatrixEntry
  foreground : List MatrixEntry
  product_flows : List (PFKey × Nat)
  pf_index : List ProductFlow
  cutoff : List CutoffEntry
  emissions : List (EmKey × Nat)
  ef_index : List Emission
  warnings : List String
deriving DecidableEq, Repr

/-- `_index_archive`: map (reference flow uuid, complementary direction) to the
processes that terminate it, in archive order. -/
def index_archive (arch : List LcProcess) : List (EmKey × List (Option LcProcess)) :=
  arch.foldl (fun t p =>
    p.references.foldl (fun t1 rx =>
      aappendList t1 (rx.flow.uuid, comp_dir rx.direction) (some p)) t) []

/-- `BackgroundManager.__init__`: index the archive and refuse databases whose
required recursion limit exceeds the safe maximum. -/
def mkBackgroundMgr (arch : List LcProcess) : Except String BackgroundMgr :=
  if MAX_SAFE_RECURSION_LIMIT < arch.length then
    Except.error ("EnvironmentError: This database may require too high a recursion limit")
  else Except.ok
    { archive := arch, lowlinks := [], tstack := TarjanStack.init
      a_matrix := none, b_matrix := none
      terminations := index_archive arch, rec_limit := arch.length
      interior_incoming := [], interior := [], foreground := []
      product_flows := [], pf_index := [], cutoff := []
      emissions := [], ef_index := [], warnings := [] }

/-- `index(product_flow)`: the dense index registered for a product flow. -/
def BackgroundMgr.index (st : BackgroundMgr) (pf : ProductFlow) : Except String Nat :=
  match alookup st.product_flows pf.key with
  | some i => Except.ok i
  | none => Except.error ("KeyError: product_flows")

/-- `_lowlink(product_flow)`. -/
def BackgroundMgr.lowlink (st : BackgroundMgr) (pf : ProductFlow) : Except String Nat :=
  match alookup st.lowlinks pf.key with
  | some i => Except.ok i
  | none => Except.error ("KeyError: lowlinks")

/-- `_set_lowlink`: keep the lower of the existing and the supplied lowlink. -/
def BackgroundMgr.set_lowlink (st : BackgroundMgr) (pf : ProductFlow) (lowlink : Nat) :
    BackgroundMgr :=
  match alookup st.lowlinks pf.key with
  | some existing =>
    { st with lowlinks := aupsert st.lowlinks pf.key (min existing lowlink) }
  | none => { st with lowlinks := aupsert st.lowlinks pf.key lowlink }

/-- `_check_product_flow`: the registered product flow for (flow, termination),
if any.  (The stored index is always within `pf_index`; a stale index would
be the Python IndexError.) -/
def BackgroundMgr.check_product_flow (st : BackgroundMgr) (flow : LcFlow)
    (termination : Option LcProcess) : Except String (Option ProductFlow) :=
  let k : PFKey := (flow.uuid, termination.map (fun t => t.uuid))
  match alookup st.product_flows k with
  | some i =>
    match st.pf_index.get? i with
    | some pf => Except.ok (some pf)
    | none => Except.error ("IndexError: pf_index")
  | none => Except.ok none

/-- `_add_product_flow`: register key→index, seed the lowlink, append to the
index list and push onto the Tarjan stack. -/
def BackgroundMgr.add_product_flow (st : BackgroundMgr) (pf : ProductFlow) :
    Except String BackgroundMgr := do
  let st1 := { st with product_flows := aupsert st.product_flows pf.key pf.index }
  let st2 := st1.set_lowlink pf pf.index
  let st3 := { st2 with pf_index := st2.pf_index ++ [pf] }
  let ts ← st3.tstack.add_to_stack pf
  Except.ok { st3 with tstack := ts }

/-- `_create_product_flow`: construct a ProductFlow at the next dense index
(collecting its warnings) and register it. -/
def BackgroundMgr.create_product_flow (st : BackgroundMgr) (flow : LcFlow)
    (termination : LcProcess) : Except String (BackgroundMgr × ProductFlow) := do
  let index := st.pf_index.length
  let (pf, ws) := mk_product_flow index flow termination
  let st1 := { st with warnings := st.warnings ++ ws }
  let st2 ← st1.add_product_flow pf
  Except.ok (st2, pf)

/-- `_add_emission`: check, create and register an Emission all at once. -/
def BackgroundMgr.add_emission (st : BackgroundMgr) (flow : LcFlow)
    (direction : Direction) : Except String (BackgroundMgr × Emission) :=
  match alookup st.emissions (flow.uuid, direction) with
  | some i =>
    match st.ef_index.get? i with
    | some ef => Except.ok (st, ef)
    | none => Except.error ("IndexError: ef_index")
  | none =>
    Except.ok ({ st with
        emissions := aupsert st.emissions (flow.uuid, direction) st.ef_index.length
        ef_index := st.ef_index ++ [{ index := st.ef_index.length, flow := flow
                                      direction := direction
                                      key := (flow.uuid, direction) }] },
      { index := st.ef_index.length, flow := flow, direction := direction
        key := (flow.uuid, direction) })

/-- `terminate`: explicit termination beats the cache; a cache miss appends a
null marker under the key and reports no termination.  Lists of length ≠ 1
never contain the null marker (it is only ever cached alone), so unwrapping
the Option layer before `resolve_termination` is the identity there. -/
def BackgroundMgr.terminate (st : BackgroundMgr) (exch : LcExchange)
    (strategy : String) : Except String (BackgroundMgr × Option LcProcess) :=
  match exch.termination with
  | some u => Except.ok (st, st.archive.find? (fun p => p.uuid = u))
  | none =>
    match alookup st.terminations (exch.flow.uuid, exch.direction) with
    | some terms =>
      match terms with
      | [t] => Except.ok (st, t)
      | _ =>
        match resolve_termination exch (terms.filterMap id) strategy with
        | Except.error e => Except.error e
        | Except.ok r => Except.ok (st, r)
    | none =>
      Except.ok ({ st with terminations :=
        st.terminations ++ [((exch.flow.uuid, exch.direction), [none])] }, none)

/-- `add_cutoff`: normalize the raw exchange value by the parent inbound
reference magnitude (Python float division raises on zero) and append the
B-matrix entry. -/
def BackgroundMgr.add_cutoff (st : BackgroundMgr) (parent : ProductFlow)
    (emission : Emission) (val : ℚ) : Except String BackgroundMgr :=
  if parent.inbound_ev = 0 then Except.error ("ZeroDivisionError")
  else Except.ok
    { st with cutoff := st.cutoff ++ [⟨parent, emission, val / parent.inbound_ev⟩] }

/-- `add_interior`: normalize the direction-adjusted exchange value by the
parent inbound reference magnitude and append the pending A-matrix entry. -/
def BackgroundMgr.add_interior (st : BackgroundMgr) (parent : ProductFlow)
    (term : ProductFlow) (val : ℚ) : Except String BackgroundMgr :=
  if parent.inbound_ev = 0 then Except.error ("ZeroDivisionError")
  else Except.ok
    { st with interior_incoming :=
        st.interior_incoming ++ [⟨parent, term, val / parent.inbound_ev⟩] }

/-- The Tarjan bookkeeping for one interior child: look the child up, create
and recurse into it when unseen (carrying back the child lowlink), carry
back the child index when it is on the stack, and do nothing otherwise.
Returns the updated state and the child product flow. -/
def tarjanVisit (recurse : ProductFlow → BackgroundMgr → Except String BackgroundMgr)
    (parent : ProductFlow) (stx : BackgroundMgr) (flow : LcFlow) (t : LcProcess) :
    Except String (BackgroundMgr × ProductFlow) :=
  match stx.check_product_flow flow (some t) with
  | Except.error e => Except.error e
  | Except.ok none =>
    match stx.create_product_flow flow t with
    | Except.error e => Except.error e
    | Except.ok ci =>
      match recurse ci.2 ci.1 with
      | Except.error e => Except.error e
      | Except.ok st3 =>
        match st3.lowlink ci.2 with
        | Except.error e => Except.error e
        | Except.ok low => Except.ok (st3.set_lowlink parent low, ci.2)
  | Except.ok (some i) =>
    if stx.tstack.check_stack i then
      match stx.index i with
      | Except.error e => Except.error e
      | Except.ok idx => Except.ok (stx.set_lowlink parent idx, i)
    else Except.ok (stx, i)

/-- The body of the exchange loop of `_traverse_term_exchanges` for a single
exchange: skip references and null/zero values, resolve the termination,
emit a cutoff or visit the interior child per Tarjan, and record the
normalized (direction-adjusted) entry.  `recurse` is the traversal at the
next depth. -/
def traverseOne (recurse : ProductFlow → BackgroundMgr → Except String BackgroundMgr)
    (multi_term : String) (parent : ProductFlow) (rx : LcExchange)
    (st : BackgroundMgr) (exch : LcExchange) : Except String BackgroundMgr :=
  if exch.is_reference then Except.ok st else
  match exchAllocValue exch rx with
  | none => Except.ok st
  | some v =>
    if v = 0 then Except.ok st else
    match st.terminate exch multi_term with
    | Except.error e => Except.error e
    | Except.ok (st1, none) =>
      match st1.add_emission exch.flow exch.direction with
      | Except.error e => Except.error e
      | Except.ok (st2, emission) => st2.add_cutoff parent emission v
    | Except.ok (st1, some t) =>
      match tarjanVisit recurse parent st1 exch.flow t with
      | Except.error e => Except.error e
      | Except.ok next =>
        next.1.add_interior parent next.2
          (if exch.direction = Direction.Output then -v else v)

/-- Sequential fold of `traverseOne` over the exchange list of the parent. -/
def traverseList (recurse : ProductFlow → BackgroundMgr → Except String BackgroundMgr)
    (multi_term : String) (parent : ProductFlow) (rx : LcExchange) :
    BackgroundMgr → List LcExchange → Except String BackgroundMgr
  | st, [] => Except.ok st
  | st, e :: es =>
    match traverseOne recurse multi_term parent rx st e with
    | Except.error err => Except.error err
    | Except.ok st1 => traverseList recurse multi_term parent rx st1 es

/-- `_traverse_term_exchanges`: the recursive Tarjan traversal of a parent
product flow.  The fuel models the interpreter recursion limit (the source
sets it to the archive size).  An unallocated process without a default
allocation is a dead end (empty exchange list); with a default allocation
the archive allocates it externally and the exchange list is used as-is. -/
def traverse_term_exchanges (multi_term : String) (default_allocation : Option Nat) :
    Nat → ProductFlow → BackgroundMgr → Except String BackgroundMgr
  | 0, _, _ => Except.error ("RecursionError")
  | fuel + 1, parent, st =>
    match parent.process.findReference parent.flow with
    | none => Except.error ("StopIteration: no matching reference exchange")
    | some rx =>
      match traverseList
          (fun i s => traverse_term_exchanges multi_term default_allocation fuel i s)
          multi_term parent rx st
          (if (!parent.process.allocated) && default_allocation.isNone then []
           else parent.process.exchanges) with
      | Except.error e => Except.error e
      | Except.ok st1 =>
        match st1.lowlink parent with
        | Except.error e => Except.error e
        | Except.ok low =>
          match st1.index parent with
          | Except.error e => Except.error e
          | Except.ok idx =>
            if low = idx then
              match st1.tstack.label_scc idx parent.key with
              | Except.error e => Except.error e
              | Except.ok ts => Except.ok { st1 with tstack := ts }
            else Except.ok st1

/-- The drain loop of `_update_component_graph`, operating on the pending list
already reversed: Python pops repeatedly from the end of
`_interior_incoming`, so entries are visited in reverse discovery order,
each appended to `_interior` (background parent) or `_foreground`. -/
def drainRev (ts : TarjanStack) :
    List MatrixEntry → List MatrixEntry → List MatrixEntry →
    List MatrixEntry × List MatrixEntry
  | [], int, fg => (int, fg)
  | k :: rest, int, fg =>
    if ts.is_background k.parent.index then drainRev ts rest (int ++ [k]) fg
    else drainRev ts rest int (fg ++ [k])

/-- The triple comprehension of `_construct_a_matrix`: (row, column, value)
over `bg_dict` for each entry, in list order. -/
def tripleMapA (ts : TarjanStack) : List MatrixEntry → Except String (List (Nat × Nat × ℚ))
  | [] => Except.ok []
  | i :: rest =>
    match ts.bg_dict i.term.index with
    | Except.error e => Except.error e
    | Except.ok r =>
      match ts.bg_dict i.parent.index with
      | Except.error e => Except.error e
      | Except.ok c =>
        match tripleMapA ts rest with
        | Except.error e => Except.error e
        | Except.ok more => Except.ok ((r, c, i.value) :: more)

/-- `_construct_a_matrix`: triples (row, column, value) over `bg_dict` for the
interior entries whose parent is background.  When the comprehension is
empty, `sp.array([])` is one-dimensional and the `num_bg[:, 2]` indexing
raises IndexError.  The source has no guard against an already-present A
matrix; on a nonempty comprehension it silently overwrites. -/
def BackgroundMgr.construct_a_matrix (st : BackgroundMgr) : Except String BackgroundMgr :=
  match tripleMapA st.tstack
      (st.interior.filter (fun i => st.tstack.is_background i.parent.index)) with
  | Except.error e => Except.error e
  | Except.ok triples =>
    if triples = [] then Except.error ("IndexError: too many indices for array")
    else Except.ok { st with a_matrix := some triples }

/-- The triple comprehension of `_construct_b_matrix`: (emission row, column,
value) for each cutoff entry, in list order. -/
def tripleMapB (ts : TarjanStack) : List CutoffEntry → Except String (List (Nat × Nat × ℚ))
  | [] => Except.ok []
  | co :: rest =>
    match ts.bg_dict co.parent.index with
    | Except.error e => Except.error e
    | Except.ok c =>
      match tripleMapB ts rest with
      | Except.error e => Except.error e
      | Except.ok more => Except.ok ((co.term.index, c, co.value) :: more)

/-- `_construct_b_matrix`: raises when B is already present; rows are emission
indices, columns come from `bg_dict`; an empty comprehension raises
IndexError at the `num_bg[:, 2]` indexing (one-dimensional `sp.array([])`);
on success the cutoffs retained are exactly those with a foreground parent. -/
def BackgroundMgr.construct_b_matrix (st : BackgroundMgr) : Except String BackgroundMgr :=
  if st.b_matrix.isSome then Except.error ("ValueError: B matrix already specified!")
  else
    match tripleMapB st.tstack
        (st.cutoff.filter (fun co => st.tstack.is_background co.parent.index)) with
    | Except.error e => Except.error e
    | Except.ok triples =>
      if triples = [] then Except.error ("IndexError: too many indices for array")
      else
        Except.ok { st with b_matrix := some triples
                            cutoff := st.cutoff.filter
                              (fun co => !(st.tstack.is_background co.parent.index)) }

/-- The A-then-B construction sequence run by `_update_component_graph`. -/
def BackgroundMgr.construct_ab (st : BackgroundMgr) : Except String BackgroundMgr :=
  match st.construct_a_matrix with
  | Except.error e => Except.error e
  | Except.ok st2 => st2.construct_b_matrix

/-- The state after draining the pending queue into `_interior` /
`_foreground` under the freshly updated component graph `ts`. -/
def BackgroundMgr.route_drained (st : BackgroundMgr) (ts : TarjanStack) : BackgroundMgr :=
  { st with tstack := ts, interior_incoming := []
            interior := (drainRev ts st.interior_incoming.reverse st.interior st.foreground).1
            foreground := (drainRev ts st.interior_incoming.reverse st.interior st.foreground).2 }

/-- The tail of `_update_component_graph`: drain, then materialize A and B on
the first update at which a background exists.  (Draining does not touch
the A matrix, so the A-absent test is read off the incoming state.) -/
def BackgroundMgr.update_finish (st : BackgroundMgr) (ts : TarjanStack) :
    Except String BackgroundMgr :=
  if st.a_matrix.isNone ∧ ts.background.isSome then
    (st.route_drained ts).construct_ab
  else Except.ok (st.route_drained ts)

/-- `_update_component_graph`: integrate pending entries into the component
graph (re-selecting the background), drain the pending queue, and construct
the matrices when a background first exists. -/
def BackgroundMgr.update_component_graph (st : BackgroundMgr) :
    Except String BackgroundMgr :=
  match st.tstack.add_to_graph pyRecursionLimit st.interior_incoming with
  | Except.error e => Except.error e
  | Except.ok ts => st.update_finish ts

/-- `_add_ref_product`: create the product flow and run the traversal under
the database recursion limit. -/
def BackgroundMgr.add_ref_product_inner (st : BackgroundMgr) (flow : LcFlow)
    (termination : LcProcess) (multi_term : String) (default_allocation : Option Nat) :
    Except String (BackgroundMgr × ProductFlow) := do
  let cj ← st.create_product_flow flow termination
  let st1 ← traverse_term_exchanges multi_term default_allocation st.rec_limit cj.2 cj.1
  Except.ok (st1, cj.2)

/-- `add_ref_product`: add a reference product (a column of A+B), traversing
it if unseen, then integrate the pending entries. -/
def BackgroundMgr.add_ref_product (st : BackgroundMgr) (flow : LcFlow)
    (termination : LcProcess) (multi_term : String) (default_allocation : Option Nat) :
    Except String (BackgroundMgr × ProductFlow) := do
  let jOpt ← st.check_product_flow flow (some termination)
  match jOpt with
  | some j => Except.ok (st, j)
  | none => do
    let rj ← st.add_ref_product_inner flow termination multi_term default_allocation
    let st2 ← rj.1.update_component_graph
    Except.ok (st2, rj.2)

/-- `add_all_ref_products`: seed a traversal for every unseen reference product
of the archive, then integrate once at the end. -/
def BackgroundMgr.add_all_ref_products (st : BackgroundMgr) (multi_term : String)
    (default_allocation : Option Nat) : Except String BackgroundMgr := do
  let st1 ← st.archive.foldlM (fun (s : BackgroundMgr) p =>
    p.reference_entity.foldlM (fun (s1 : BackgroundMgr) x => do
      let jOpt ← s1.check_product_flow x.flow (some p)
      match jOpt with
      | some _ => Except.ok s1
      | none => do
        let rj ← s1.add_ref_product_inner x.flow p multi_term default_allocation
        Except.ok rj.1) s) st
  st1.update_component_graph

/-! ### Iterative LCI solver

Modelled from the spec: `BackgroundManager.compute_bg_lci` is invoked by
`display.py` (`bg_lcia`, line 122) but its definition is not among the
source files; the definitions below follow the Iterative LCI pseudocode of
the specification (section 4.6) verbatim, over exact rationals.  Vectors are
lists, matrices are row lists, and the 1-norm drives convergence. -/

/-- Pointwise vector sum. -/
def vadd (u v : List ℚ) : List ℚ := List.zipWith (fun a b => a + b) u v

/-- Pointwise vector difference. -/
def vsub (u v : List ℚ) : List ℚ := List.zipWith (fun a b => a - b) u v

/-- Dot product. -/
def dotL (row x : List ℚ) : ℚ := (List.zipWith (fun a b => a * b) row x).sum

/-- Matrix-vector product (rows dotted with the vector). -/
def matvec (A : List (List ℚ)) (x : List ℚ) : List ℚ :=
  A.map (fun row => dotL row x)

/-- The 1-norm. -/
def l1norm (v : List ℚ) : ℚ := (v.map (fun q => |q|)).sum

/-- The zero vector. -/
def zeroVec (n : Nat) : List ℚ := List.replicate n 0

/-- Result of the iterative solver: the cumulative total, `B*·total`, and
whether the loop exited through one of its two convergence tests (rather
than by exhausting the iteration count). -/
structure LciResult where
  total : List ℚ
  bx : List ℚ
  converged : Bool
deriving DecidableEq, Repr

/-- Modelled from the spec: the loop of `compute_bg_lci` (section 4.6) —
`total ← total + x; x ← A*·x; inc ← ‖x‖₁; return exactly on inc = 0;
sumtotal ← sumtotal + inc; break when inc/sumtotal < threshold`. -/
def compute_bg_lci_loop (A B : List (List ℚ)) (threshold : ℚ) :
    Nat → List ℚ → List ℚ → ℚ → LciResult
  | 0, _, total, _ => { total := total, bx := matvec B total, converged := false }
  | k + 1, x, total, sumtotal =>
    if l1norm (matvec A x) = 0 then
      { total := vadd total x, bx := matvec B (vadd total x), converged := true }
    else if l1norm (matvec A x) / (sumtotal + l1norm (matvec A x)) < threshold then
      { total := vadd total x, bx := matvec B (vadd total x), converged := true }
    else compute_bg_lci_loop A B threshold k (matvec A x) (vadd total x)
      (sumtotal + l1norm (matvec A x))

/-- Modelled from the spec: default `threshold = 1e-8`. -/
def defaultThreshold : ℚ := 1 / 100000000

/-- Modelled from the spec: default `count = 100`. -/
def defaultCount : Nat := 100

/-- Modelled from the spec: `compute_bg_lci(ad)` — start from `x = ad`,
`total = 0`, `sumtotal = 0` and iterate at most `count` times. -/
def compute_bg_lci (A B : List (List ℚ)) (ad : List ℚ) (threshold : ℚ)
    (count : Nat) : LciResult :=
  compute_bg_lci_loop A B threshold count ad (zeroVec ad.length) 0

/-- The residual `(I − A)·total − ad` of a solver output. -/
def lciResidual (A : List (List ℚ)) (ad total : List ℚ) : List ℚ :=
  vsub (vsub total (matvec A total)) ad

/-- `k`-fold application of the matrix. -/
def iterMatvec (A : List (List ℚ)) : Nat → List ℚ → List ℚ
  | 0, x => x
  | k + 1, x => iterMatvec A k (matvec A x)

/-- `Σ_{i=1..k} ‖A^i·x‖₁`: the total increment mass available to the solver
within `k` iterations. -/
def partialSumIncs (A : List (List ℚ)) (x : List ℚ) : Nat → ℚ
  | 0 => 0
  | k + 1 => partialSumIncs A x k + l1norm (iterMatvec A (k + 1) x)

/-! ### Concrete archives

Small concrete archives exercising the pipeline; they instantiate the
spec scenarios (self-dependency, two-node cycles, foreground over
background) used to settle the claims on concrete runs. -/

/-- A concrete exchange with a definite value and no explicit termination. -/
def mkExch (fl : LcFlow) (d : Direction) (v : ℚ) (ref : Bool) : LcExchange :=
  { flow := fl, direction := d, value := some v, termination := none, is_reference := ref }

/-- Self-dependency scenario: P outputs its reference flow (magnitude 1) and
consumes 0.1 of the same flow. -/
def flowSelf : LcFlow := { uuid := 10, name := "F" }

/-- The self-consuming process of the self-dependency scenario. -/
def procSelf : LcProcess :=
  { uuid := 1, name := "P", allocated := true
    exchanges := [mkExch flowSelf Direction.Output 1 true,
                  mkExch flowSelf Direction.Input (1 / 10) false] }

/-- Run of the self-dependency scenario. -/
def runSelf : Except String (BackgroundMgr × ProductFlow) := do
  let st ← mkBackgroundMgr [procSelf]
  st.add_ref_product flowSelf procSelf "first" none

/-- Flow `i` of the cycle scenarios. -/
def cycFlow (i : Nat) : LcFlow := { uuid := i, name := "F" ++ toString i }

/-- A process with reference flow `i` (output, magnitude 1) consuming unit
inputs of the flows listed in `ins`. -/
def cycProc (i : Nat) (ins : List Nat) : LcProcess :=
  { uuid := i, name := "P" ++ toString i, allocated := true
    exchanges := mkExch (cycFlow i) Direction.Output 1 true ::
      ins.map (fun j => mkExch (cycFlow j) Direction.Input 1 false) }

/-- A flow no process of any scenario archive terminates: every exchange of it
resolves to a cutoff. -/
def cutFlow : LcFlow := { uuid := 100, name := "W" }

/-- `cycProc` with one extra unit input of the unterminated flow, so each
traversal records a cutoff entry (giving the B-matrix comprehension
something to build from). -/
def cycProcW (i : Nat) (ins : List Nat) : LcProcess :=
  { uuid := i, name := "P" ++ toString i, allocated := true
    exchanges := mkExch (cycFlow i) Direction.Output 1 true ::
      ins.map (fun j => mkExch (cycFlow j) Direction.Input 1 false) ++
      [mkExch cutFlow Direction.Input 1 false] }

/-- Two disjoint two-node cycles: P0 <-> P1 and P2 <-> P3, with P0 also the
entry point into the second cycle; every process carries a cutoff input. -/
def archTwoCycles : List LcProcess :=
  [cycProcW 0 [1, 2], cycProcW 1 [0], cycProcW 2 [3], cycProcW 3 [2]]

/-- Run of the two-cycle scenario through `add_all_ref_products`. -/
def runTwoCycles : Except String BackgroundMgr := do
  let st ← mkBackgroundMgr archTwoCycles
  st.add_all_ref_products "first" none

/-- Archive for the background-switch scenario: a two-node cycle P0 <-> P1
depending on the singleton P2, plus a disjoint three-node cycle
P3 -> P4 -> P5 -> P3; every process carries a cutoff input. -/
def archSwitch : List LcProcess :=
  [cycProcW 0 [1, 2], cycProcW 1 [0], cycProcW 2 [], cycProcW 3 [4],
   cycProcW 4 [5], cycProcW 5 [3]]

/-- Run of the background-switch scenario: two successive `add_ref_product`
calls, so the background is selected twice (first the two-node cycle, then
the three-node cycle). -/
def runSwitch : Except String BackgroundMgr := do
  let st ← mkBackgroundMgr archSwitch
  let r1 ← st.add_ref_product (cycFlow 0) (cycProcW 0 [1, 2]) "first" none
  let r2 ← r1.1.add_ref_product (cycFlow 3) (cycProcW 3 [4]) "first" none
  Except.ok r2.1

/-- P1 of spec scenario 2: outputs F1 (ref 1), consumes 3 units of F2, plus a
unit cutoff input (so the B-matrix comprehension is nonempty once the pair
becomes background). -/
def procP1 : LcProcess :=
  { uuid := 1, name := "P1", allocated := true
    exchanges := [mkExch (cycFlow 1) Direction.Output 1 true,
                  mkExch (cycFlow 2) Direction.Input 3 false,
                  mkExch cutFlow Direction.Input 1 false] }

/-- P2 of spec scenario 2: outputs F2 (ref 1), consumes 2 units of F1. -/
def procP2 : LcProcess :=
  { uuid := 2, name := "P2", allocated := true
    exchanges := [mkExch (cycFlow 2) Direction.Output 1 true,
                  mkExch (cycFlow 1) Direction.Input 2 false] }

/-- The two-node cycle of spec scenario 2. -/
def archPair : List LcProcess := [procP1, procP2]

/-- The pair scenario stopped right after the traversal (before
`_update_component_graph`): the pending entries sit in discovery order. -/
def runPairTraversal : Except String BackgroundMgr := do
  let st ← mkBackgroundMgr archPair
  let r ← st.add_ref_product_inner (cycFlow 1) procP1 "first" none
  Except.ok r.1

/-- The pair scenario carried through the integration step. -/
def runPair : Except String BackgroundMgr := do
  let st ← runPairTraversal
  st.update_component_graph

/-- Unwrap a non-raising run (used to state concrete-run facts). -/
def exVal {α : Type} (e : Except String α) : Option α :=
  match e with
  | Except.ok a => some a
  | Except.error _ => none

/-- An empty manager state (used to instantiate general theorems). -/
def bmEmpty : BackgroundMgr :=
  { archive := [], lowlinks := [], tstack := TarjanStack.init
    a_matrix := none, b_matrix := none, terminations := [], rec_limit := 0
    interior_incoming := [], interior := [], foreground := []
    product_flows := [], pf_index := [], cutoff := [], emissions := []
    ef_index := [], warnings := [] }

/-- The product flow of the self-dependency scenario. -/
def pfSelf : ProductFlow := (mk_product_flow 0 flowSelf procSelf).1

/-- A concrete emission row (used to instantiate general theorems). -/
def emW : Emission :=
  { index := 0, flow := flowSelf, direction := Direction.Output
    key := (10, Direction.Output) }

/-- A process whose reference exchange has value zero. -/
def procZero : LcProcess :=
  { uuid := 7, name := "Z", allocated := true
    exchanges := [mkExch flowSelf Direction.Output 0 true] }

/-- The product flow built on the zero-valued reference. -/
def pfZero : ProductFlow := (mk_product_flow 0 flowSelf procZero).1

/-- The background prescribed by the claim wording (stated from the spec, for
comparison with the code): among the SCCs of maximal size, the one with the
lowest SCC-id, provided the maximum exceeds 1. -/
def claimedBackground (sccs : List (Nat × List ProductFlow)) : Option Nat :=
  let m := (sccs.map (fun p => p.2.length)).foldr max 0
  if 1 < m then ((sccs.filter (fun p => p.2.length = m)).map (fun p => p.1)).min?
  else none

/-- One dependency edge of the SCC-level component graph `rows_by_col`. -/
def graphStep (rows : List (Nat × List Nat)) (a b : Nat) : Prop :=
  b ∈ agetList rows a

/-- A two-member SCC list (the same product flow twice; sizes are what matter). -/
def memPair : List ProductFlow := [pfSelf, pfSelf]

/-- A small Tarjan-stack state with one SCC of size two (witness input). -/
def tsOneScc : TarjanStack :=
  { TarjanStack.init with sccs := [(0, memPair)] }

/-- A small Tarjan-stack state with two SCCs, sized 1 and 2 (witness input). -/
def tsTwoSccs : TarjanStack :=
  { TarjanStack.init with sccs := [(5, [pfSelf]), (3, memPair)] }

/-- The manager state of the self-dependency scenario right after the parent
product flow has been created (the traversal has not started yet). -/
def bmSelfMid : BackgroundMgr :=
  (exVal ((mkBackgroundMgr [procSelf]).bind
    (fun st => (st.create_product_flow flowSelf procSelf).map (fun r => r.1)))).getD bmEmpty

/-- A concrete consumer exchange (witness input for the resolver). -/
def exC6 : LcExchange := mkExch (cycFlow 1) Direction.Input 1 false

/-- A manager state with both matrices already assembled (witness input). -/
def bmFrozen : BackgroundMgr :=
  { bmEmpty with a_matrix := some [], b_matrix := some [] }

/-- The result of background selection on `tsOneScc` (witness value). -/
def tsOneSccResult : TarjanStack :=
  { stack := [], sccs := [(0, memPair)], scc_of := [], cols_by_row := [],
    rows_by_col := [], background := some 0, downstream := [],
    bg_index := [(0, 0), (0, 1)] }

/-- The reference exchange of the self-dependency process. -/
def rxSelf : LcExchange := mkExch flowSelf Direction.Output 1 true

/-- The self-consuming exchange of the self-dependency process. -/
def exchSelfLoop : LcExchange := mkExch flowSelf Direction.Input (1 / 10) false

/-- The self-dependency scenario stopped right after the traversal (before
`_update_component_graph`). -/
def runSelfTraversal : Except String BackgroundMgr := do
  let st ← mkBackgroundMgr [procSelf]
  let r ← st.add_ref_product_inner flowSelf procSelf "first" none
  Except.ok r.1

/-- The pair-scenario state just before integration (concrete value). -/
def bmPairMid : BackgroundMgr := (exVal runPairTraversal).getD bmEmpty

/-- The pair-scenario state after integration (concrete value). -/
def bmPairDone : BackgroundMgr := (exVal runPair).getD bmEmpty

/-! ## Theorems -/

/-- C5: for every exchange whose (allocated) value is null or zero, the
traversal step leaves the manager state entirely unchanged: no interior or
cutoff entry is recorded, no termination is resolved or cached, no product
flow is created, and the recursion callback is never invoked. -/
theorem traversal_prunes_null_zero
    (recurse : ProductFlow → BackgroundMgr → Except String BackgroundMgr)
    (multi_term : String) (parent : ProductFlow) (rx : LcExchange)
    (st : BackgroundMgr) (exch : LcExchange)
    (h : exchAllocValue exch rx = none ∨ exchAllocValue exch rx = some 0) :
    traverseOne recurse multi_term parent rx st exch = Except.ok st := by
  unfold traverseOne
  rcases h with h | h <;> rw [h] <;> by_cases href : exch.is_reference <;> simp [href]

/-- Witness for C5 at a concrete zero-valued exchange. -/
theorem traversal_prunes_null_zero_witness :
    (exchAllocValue (mkExch flowSelf Direction.Input 0 false)
        (mkExch flowSelf Direction.Output 1 true) = none ∨
      exchAllocValue (mkExch flowSelf Direction.Input 0 false)
        (mkExch flowSelf Direction.Output 1 true) = some 0) ∧
    traverseOne (fun _ s => Except.ok s) "first" pfSelf
      (mkExch flowSelf Direction.Output 1 true) bmEmpty
      (mkExch flowSelf Direction.Input 0 false) = Except.ok bmEmpty :=
  ⟨Or.inr (by with_unfolding_all decide),
   traversal_prunes_null_zero (fun _ s => Except.ok s) "first" pfSelf
     (mkExch flowSelf Direction.Output 1 true) bmEmpty
     (mkExch flowSelf Direction.Input 0 false) (Or.inr (by with_unfolding_all decide))⟩

/-- The drain loop splits the (already reversed) pending list by background
parenthood, appending in visit order. -/
theorem drainRev_append (ts : TarjanStack) :
    ∀ (l int fg : List MatrixEntry),
      drainRev ts l int fg =
        (int ++ l.filter (fun k => ts.is_background k.parent.index),
         fg ++ l.filter (fun k => !(ts.is_background k.parent.index))) := by
  intro l
  induction l with
  | nil => intro int fg; simp [drainRev]
  | cons k rest ih =>
    intro int fg
    by_cases h : ts.is_background k.parent.index
    · simp [drainRev, h, ih, List.filter_cons]
    · simp [drainRev, h, ih, List.filter_cons]

/-- `_construct_a_matrix` changes only the A matrix. -/
theorem construct_a_fields (st st2 : BackgroundMgr)
    (h : st.construct_a_matrix = Except.ok st2) :
    st2.interior = st.interior ∧ st2.foreground = st.foreground ∧
    st2.cutoff = st.cutoff ∧ st2.b_matrix = st.b_matrix ∧
    st2.interior_incoming = st.interior_incoming ∧ st2.tstack = st.tstack := by
  revert h
  unfold BackgroundMgr.construct_a_matrix
  cases hm : tripleMapA st.tstack
      (st.interior.filter (fun i => st.tstack.is_background i.parent.index)) with
  | error e => intro h; simp [hm] at h
  | ok t =>
    by_cases hnil : t = []
    · intro h; simp [hnil] at h
    · intro h
      replace h : (if t = [] then Except.error ("IndexError: too many indices for array")
          else Except.ok { st with a_matrix := some t }) = Except.ok st2 := h
      rw [if_neg hnil] at h
      cases h
      exact ⟨rfl, rfl, rfl, rfl, rfl, rfl⟩

/-- `_construct_b_matrix` changes only the B matrix and filters the cutoffs. -/
theorem construct_b_fields (st st2 : BackgroundMgr)
    (h : st.construct_b_matrix = Except.ok st2) :
    st2.interior = st.interior ∧ st2.foreground = st.foreground ∧
    st2.a_matrix = st.a_matrix ∧
    st2.cutoff = st.cutoff.filter
      (fun co => !(st.tstack.is_background co.parent.index)) ∧
    st2.interior_incoming = st.interior_incoming ∧ st2.tstack = st.tstack := by
  revert h
  unfold BackgroundMgr.construct_b_matrix
  by_cases hb : st.b_matrix.isSome
  · intro h; simp [hb] at h
  · cases hm : tripleMapB st.tstack
        (st.cutoff.filter (fun co => st.tstack.is_background co.parent.index)) with
    | error e => intro h; simp [hb, hm] at h
    | ok t =>
      by_cases hnil : t = []
      · intro h; simp [hb, hnil] at h
      · intro h
        rw [if_neg hb] at h
        replace h : (if t = [] then Except.error ("IndexError: too many indices for array")
            else Except.ok { st with b_matrix := some t
                                     cutoff := st.cutoff.filter
                                       (fun co => !(st.tstack.is_background co.parent.index)) }) =
            Except.ok st2 := h
        rw [if_neg hnil] at h
        cases h
        exact ⟨rfl, rfl, rfl, rfl, rfl, rfl⟩

/-- Routing the pending entries into the two destination lists permutes, but
never alters, the recorded entries. -/
theorem drained_perm (ts : TarjanStack) (int fg inc : List MatrixEntry) :
    ((int ++ inc.reverse.filter (fun k => ts.is_background k.parent.index)) ++
      (fg ++ inc.reverse.filter (fun k => !(ts.is_background k.parent.index)))).Perm
      (int ++ fg ++ inc) := by
  have h1 : (inc.reverse.filter (fun k => ts.is_background k.parent.index) ++
      inc.reverse.filter (fun k => !(ts.is_background k.parent.index))).Perm inc :=
    (List.filter_append_perm _ inc.reverse).trans (List.reverse_perm inc)
  have h2 : (inc.reverse.filter (fun k => ts.is_background k.parent.index) ++
      (fg ++ inc.reverse.filter (fun k => !(ts.is_background k.parent.index)))).Perm
      (fg ++ inc) := by
    rw [← List.append_assoc]
    have hA : ((inc.reverse.filter (fun k => ts.is_background k.parent.index) ++ fg) ++
        inc.reverse.filter (fun k => !(ts.is_background k.parent.index))).Perm
        ((fg ++ inc.reverse.filter (fun k => ts.is_background k.parent.index)) ++
          inc.reverse.filter (fun k => !(ts.is_background k.parent.index))) :=
      List.Perm.append_right _ List.perm_append_comm
    refine hA.trans ?_
    rw [List.append_assoc]
    exact List.Perm.append_left fg h1
  rw [List.append_assoc int, List.append_assoc int]
  exact List.Perm.append_left int h2

/-- The A-then-B construction step preserves the interior and foreground lists
and keeps the cutoff list a sublist of itself. -/
theorem constructAB_fields (stM st2 : BackgroundMgr)
    (h : stM.construct_ab = Except.ok st2) :
    st2.interior = stM.interior ∧ st2.foreground = stM.foreground ∧
    st2.cutoff.Sublist stM.cutoff := by
  revert h
  unfold BackgroundMgr.construct_ab
  cases hA : stM.construct_a_matrix with
  | error e => intro h; simp at h
  | ok stA =>
    intro h
    have hAf := construct_a_fields _ _ hA
    have hBf := construct_b_fields _ _ h
    refine ⟨?_, ?_, ?_⟩
    · rw [hBf.1, hAf.1]
    · rw [hBf.2.1, hAf.2.1]
    · rw [hBf.2.2.2.1, hAf.2.2.1]
      exact List.filter_sublist _

/-- The interior and foreground lists of the drained state. -/
theorem route_drained_fields (st : BackgroundMgr) (ts : TarjanStack) :
    (st.route_drained ts).interior = st.interior ++
      st.interior_incoming.reverse.filter (fun k => ts.is_background k.parent.index) ∧
    (st.route_drained ts).foreground = st.foreground ++
      st.interior_incoming.reverse.filter (fun k => !(ts.is_background k.parent.index)) ∧
    (st.route_drained ts).cutoff = st.cutoff := by
  unfold BackgroundMgr.route_drained
  rw [drainRev_append]
  exact ⟨rfl, rfl, rfl⟩

/-- The interior / foreground lists produced by `_update_component_graph` are
exactly the old ones plus the routed pending entries; the cutoff list stays
a sublist of itself. -/
theorem update_routes (st1 st2 : BackgroundMgr)
    (hupd : st1.update_component_graph = Except.ok st2) :
    ∃ ts, st1.tstack.add_to_graph pyRecursionLimit st1.interior_incoming = Except.ok ts ∧
      st2.interior = st1.interior ++
        st1.interior_incoming.reverse.filter (fun k => ts.is_background k.parent.index) ∧
      st2.foreground = st1.foreground ++
        st1.interior_incoming.reverse.filter (fun k => !(ts.is_background k.parent.index)) ∧
      st2.cutoff.Sublist st1.cutoff := by
  revert hupd
  unfold BackgroundMgr.update_component_graph
  cases hadd : st1.tstack.add_to_graph pyRecursionLimit st1.interior_incoming with
  | error e => intro hupd; simp at hupd
  | ok ts =>
    intro hupd
    replace hupd : st1.update_finish ts = Except.ok st2 := hupd
    refine ⟨ts, rfl, ?_⟩
    have hroute := route_drained_fields st1 ts
    unfold BackgroundMgr.update_finish at hupd
    by_cases hcond : st1.a_matrix.isNone = true ∧ ts.background.isSome = true
    · rw [if_pos hcond] at hupd
      have hfields := constructAB_fields _ _ hupd
      refine ⟨?_, ?_, ?_⟩
      · rw [hfields.1, hroute.1]
      · rw [hfields.2.1, hroute.2.1]
      · rw [hroute.2.2] at hfields
        exact hfields.2.2
    · rw [if_neg hcond] at hupd
      cases hupd
      exact ⟨hroute.1, hroute.2.1, by rw [hroute.2.2]⟩

/-- C4: the value stored by `add_cutoff` / `add_interior` is the traversal
value divided by the parent inbound magnitude, exactly once —
`value * parent.inbound_ev` recovers the traversal value exactly — and the
post-traversal integration step merely routes entries (preserving every
recorded value) regardless of the parent's background/foreground fate. -/
theorem entry_normalization (st : BackgroundMgr) (parent : ProductFlow)
    (em : Emission) (t : ProductFlow) (v : ℚ) (h : parent.inbound_ev ≠ 0) :
    (st.add_cutoff parent em v =
        Except.ok { st with cutoff := st.cutoff ++ [⟨parent, em, v / parent.inbound_ev⟩] } ∧
      (v / parent.inbound_ev) * parent.inbound_ev = v) ∧
    (st.add_interior parent t v =
        Except.ok { st with interior_incoming :=
          st.interior_incoming ++ [⟨parent, t, v / parent.inbound_ev⟩] } ∧
      (v / parent.inbound_ev) * parent.inbound_ev = v) ∧
    (∀ st1 st2 : BackgroundMgr, st1.update_component_graph = Except.ok st2 →
      (st2.interior ++ st2.foreground).Perm
        (st1.interior ++ st1.foreground ++ st1.interior_incoming)) := by
  refine ⟨⟨?_, ?_⟩, ⟨?_, ?_⟩, ?_⟩
  · unfold BackgroundMgr.add_cutoff; rw [if_neg h]
  · exact div_mul_cancel₀ v h
  · unfold BackgroundMgr.add_interior; rw [if_neg h]
  · exact div_mul_cancel₀ v h
  · intro st1 st2 hupd
    obtain ⟨ts, _, hint, hfg, _⟩ := update_routes st1 st2 hupd
    rw [hint, hfg]
    exact drained_perm ts st1.interior st1.foreground st1.interior_incoming

/-- C10: a matching reference exchange of value zero yields `inbound_ev = 0`
silently (no warning line, no error), while `add_interior` and `add_cutoff`
divide by `inbound_ev` with no zero guard — with a zero inbound magnitude
both entry-recording operations die on the division itself
(ZeroDivisionError); nothing in the code enforces `inbound_ev ≠ 0`. -/
theorem zero_inbound_unguarded (idx : Nat) (flow : LcFlow) (proc : LcProcess)
    (rx : LcExchange) (rest : List LcExchange)
    (hmatch : proc.reference_entity.filter (fun x => x.flow = flow) = rx :: rest)
    (hval : rx.value = some 0)
    (st : BackgroundMgr) (parent term : ProductFlow) (em : Emission) (v : ℚ)
    (hev : parent.inbound_ev = 0) :
    (mk_product_flow idx flow proc).1.inbound_ev = 0 ∧
    (mk_product_flow idx flow proc).2 = [] ∧
    st.add_interior parent term v = Except.error ("ZeroDivisionError") ∧
    st.add_cutoff parent em v = Except.error ("ZeroDivisionError") := by
  refine ⟨?_, ?_, ?_, ?_⟩
  · unfold mk_product_flow
    simp only [hmatch]
    by_cases hd : rx.direction = Direction.Input <;> simp [hval, hd]
  · unfold mk_product_flow
    simp only [hmatch]
    simp [hval]
  · unfold BackgroundMgr.add_interior
    rw [if_pos hev]
  · unfold BackgroundMgr.add_cutoff
    rw [if_pos hev]

/-- Witness for C10 on a concrete zero-reference process. -/
theorem zero_inbound_unguarded_witness :
    procZero.reference_entity.filter (fun x => x.flow = flowSelf) =
      [mkExch flowSelf Direction.Output 0 true] ∧
    (mkExch flowSelf Direction.Output 0 true).value = some 0 ∧
    pfZero.inbound_ev = 0 ∧
    ((mk_product_flow 0 flowSelf procZero).1.inbound_ev = 0 ∧
      (mk_product_flow 0 flowSelf procZero).2 = [] ∧
      bmEmpty.add_interior pfZero pfZero 1 = Except.error ("ZeroDivisionError") ∧
      bmEmpty.add_cutoff pfZero emW 1 = Except.error ("ZeroDivisionError")) :=
  ⟨by with_unfolding_all decide, rfl, by with_unfolding_all decide,
   zero_inbound_unguarded 0 flowSelf procZero (mkExch flowSelf Direction.Output 0 true)
     [] (by with_unfolding_all decide) rfl bmEmpty pfZero pfZero emW 1
     (by with_unfolding_all decide)⟩

/-- Witness for C4 at a concrete state, parent and value. -/
theorem entry_normalization_witness :
    pfSelf.inbound_ev ≠ 0 ∧
    ((bmEmpty.add_cutoff pfSelf emW 3 =
        Except.ok { bmEmpty with cutoff :=
          bmEmpty.cutoff ++ [⟨pfSelf, emW, 3 / pfSelf.inbound_ev⟩] } ∧
      (3 / pfSelf.inbound_ev) * pfSelf.inbound_ev = 3) ∧
     (bmEmpty.add_interior pfSelf pfSelf 3 =
        Except.ok { bmEmpty with interior_incoming :=
          bmEmpty.interior_incoming ++ [⟨pfSelf, pfSelf, 3 / pfSelf.inbound_ev⟩] } ∧
      (3 / pfSelf.inbound_ev) * pfSelf.inbound_ev = 3) ∧
     (∀ st1 st2 : BackgroundMgr, st1.update_component_graph = Except.ok st2 →
       (st2.interior ++ st2.foreground).Perm
         (st1.interior ++ st1.foreground ++ st1.interior_incoming))) :=
  ⟨by with_unfolding_all decide,
   entry_normalization bmEmpty pfSelf emW pfSelf 3 (by with_unfolding_all decide)⟩

/-- In a name-sorted process list, every member is at most the last element. -/
theorem sorted_le_getLast :
    ∀ (l : List LcProcess), List.Sorted byName l →
      ∀ x ∈ l, ∀ t, l.getLast? = some t → byName x t := by
  intro l
  induction l with
  | nil => intro _ x hx; cases hx
  | cons a rest ih =>
    intro hs x hx t hlast
    cases rest with
    | nil =>
      simp at hlast hx
      rw [hx, ← hlast]
      exact le_refl a.name
    | cons b rest2 =>
      rw [List.getLast?_cons_cons] at hlast
      rcases List.mem_cons.mp hx with hxa | hxm
      · rw [hxa]
        exact List.rel_of_sorted_cons hs t (List.mem_of_mem_getLast? hlast)
      · exact ih hs.of_cons x hxm t hlast

/-- C6: the multi-termination resolver — a sole candidate is returned as-is;
zero candidates or strategy `cutoff` yield no termination; `mix` synthesizes
a market process whose reference magnitude is the candidate count with one
unit exchange terminated at each candidate; `first`/`last` return the
alphabetically first/last candidate by process name; any other strategy
raises. -/
theorem resolve_termination_cases (exch : LcExchange) (terms : List LcProcess)
    (strategy : String) :
    (∀ t, terms = [t] → resolve_termination exch terms strategy = Except.ok (some t)) ∧
    (terms = [] → resolve_termination exch terms strategy = Except.ok none) ∧
    (terms.length ≠ 1 → strategy = "cutoff" →
      resolve_termination exch terms strategy = Except.ok none) ∧
    (2 ≤ terms.length → strategy = "mix" →
      resolve_termination exch terms strategy = Except.ok (some (mk_market exch terms)) ∧
      ∃ refx children, (mk_market exch terms).exchanges = refx :: children ∧
        refx.is_reference = true ∧ refx.flow = exch.flow ∧
        refx.direction = comp_dir exch.direction ∧
        refx.value = some (terms.length : ℚ) ∧
        children = terms.map (fun t =>
          { flow := exch.flow, direction := exch.direction, value := some 1
            termination := some t.uuid, is_reference := false })) ∧
    (2 ≤ terms.length → strategy = "first" →
      ∃ t, resolve_termination exch terms strategy = Except.ok (some t) ∧
        t ∈ terms ∧ ∀ u ∈ terms, t.name ≤ u.name) ∧
    (2 ≤ terms.length → strategy = "last" →
      ∃ t, resolve_termination exch terms strategy = Except.ok (some t) ∧
        t ∈ terms ∧ ∀ u ∈ terms, u.name ≤ t.name) ∧
    (terms.length ≠ 1 → terms ≠ [] → strategy ≠ "cutoff" → strategy ≠ "mix" →
      strategy ≠ "first" → strategy ≠ "last" →
      resolve_termination exch terms strategy =
        Except.error ("Unknown multi-termination strategy " ++ strategy)) := by
  have hperm : (sortedByName terms).Perm terms := List.perm_insertionSort byName terms
  have hsort : List.Sorted byName (sortedByName terms) :=
    List.sorted_insertionSort byName terms
  refine ⟨?_, ?_, ?_, ?_, ?_, ?_, ?_⟩
  · intro t ht
    rw [ht]
    rfl
  · intro ht
    rw [ht]
    rfl
  · intro hlen hstrat
    unfold resolve_termination
    rw [if_neg hlen, if_pos (Or.inr hstrat)]
  · intro hlen hstrat
    have h1 : terms.length ≠ 1 := by omega
    have h0 : ¬ (terms.length = 0 ∨ strategy = "cutoff") := by
      rw [hstrat]; push_neg; exact ⟨by omega, by decide⟩
    constructor
    · unfold resolve_termination
      rw [if_neg h1, if_neg h0, if_pos hstrat]
    · exact ⟨_, _, rfl, rfl, rfl, rfl, rfl, rfl⟩
  · intro hlen hstrat
    have h1 : terms.length ≠ 1 := by omega
    have h0 : ¬ (terms.length = 0 ∨ strategy = "cutoff") := by
      rw [hstrat]; push_neg; exact ⟨by omega, by decide⟩
    have hmix : strategy ≠ "mix" := by rw [hstrat]; decide
    have hsorted_len : (sortedByName terms).length = terms.length := hperm.length_eq
    have hne : sortedByName terms ≠ [] := by
      intro hcon
      rw [hcon] at hsorted_len
      simp at hsorted_len
      omega
    obtain ⟨t, rest, hcons⟩ := List.exists_cons_of_ne_nil hne
    refine ⟨t, ?_, ?_, ?_⟩
    · unfold resolve_termination
      rw [if_neg h1, if_neg h0, if_neg hmix, if_pos hstrat, hcons]
      rfl
    · exact hperm.mem_iff.mp (by rw [hcons]; exact List.mem_cons_self t rest)
    · intro u hu
      have hu2 : u ∈ sortedByName terms := hperm.mem_iff.mpr hu
      rw [hcons] at hu2 hsort
      rcases List.mem_cons.mp hu2 with h | h
      · rw [h]
      · exact List.rel_of_sorted_cons hsort u h
  · intro hlen hstrat
    have h1 : terms.length ≠ 1 := by omega
    have h0 : ¬ (terms.length = 0 ∨ strategy = "cutoff") := by
      rw [hstrat]; push_neg; exact ⟨by omega, by decide⟩
    have hmix : strategy ≠ "mix" := by rw [hstrat]; decide
    have hfirst : strategy ≠ "first" := by rw [hstrat]; decide
    have hsorted_len : (sortedByName terms).length = terms.length := hperm.length_eq
    have hne : sortedByName terms ≠ [] := by
      intro hcon
      rw [hcon] at hsorted_len
      simp at hsorted_len
      omega
    obtain ⟨t, hlast⟩ := List.getLast?_isSome.mpr hne |> Option.isSome_iff_exists.mp
    refine ⟨t, ?_, ?_, ?_⟩
    · unfold resolve_termination
      rw [if_neg h1, if_neg h0, if_neg hmix, if_neg hfirst, if_pos hstrat, hlast]
    · exact hperm.mem_iff.mp (List.mem_of_mem_getLast? hlast)
    · intro u hu
      exact sorted_le_getLast (sortedByName terms) hsort u (hperm.mem_iff.mpr hu) t hlast
  · intro h1 h0 hc hm hf hl
    have hnot : ¬ (terms.length = 0 ∨ strategy = "cutoff") := by
      push_neg
      exact ⟨fun hcon => h0 (List.length_eq_zero.mp hcon), hc⟩
    unfold resolve_termination
    rw [if_neg h1, if_neg hnot, if_neg hm, if_neg hf, if_neg hl]

/-- Witness for C6: concrete instances of the sole-candidate, first and
unknown-strategy cases. -/
theorem resolve_termination_cases_witness :
    resolve_termination exC6 [procP1] "anything" = Except.ok (some procP1) ∧
    (∃ t, resolve_termination exC6 [procP2, procP1] "first" = Except.ok (some t) ∧
      t ∈ [procP2, procP1] ∧ ∀ u ∈ [procP2, procP1], t.name ≤ u.name) ∧
    resolve_termination exC6 [procP2, procP1] "bogus" =
      Except.error ("Unknown multi-termination strategy " ++ "bogus") :=
  ⟨(resolve_termination_cases exC6 [procP1] "anything").1 procP1 rfl,
   (resolve_termination_cases exC6 [procP2, procP1] "first").2.2.2.2.1
     (by decide) rfl,
   (resolve_termination_cases exC6 [procP2, procP1] "bogus").2.2.2.2.2.2
     (by decide) (by decide) (by decide) (by decide) (by decide) (by decide)⟩

/-- Inversion of a successful `Except` bind. -/
theorem except_bind_ok {α β : Type} (x : Except String α) (f : α → Except String β)
    (b : β) (h : x >>= f = Except.ok b) : ∃ a, x = Except.ok a ∧ f a = Except.ok b := by
  cases x with
  | error e => simp [Bind.bind, Except.bind] at h
  | ok a => exact ⟨a, rfl, by simpa [Bind.bind, Except.bind] using h⟩

/-- Both assembled matrices agree between two manager states. -/
def matsEq (s1 s2 : BackgroundMgr) : Prop :=
  s1.a_matrix = s2.a_matrix ∧ s1.b_matrix = s2.b_matrix

/-- `matsEq` is transitive. -/
theorem matsEq_trans {s1 s2 s3 : BackgroundMgr} (h1 : matsEq s1 s2) (h2 : matsEq s2 s3) :
    matsEq s1 s3 := ⟨h1.1.trans h2.1, h1.2.trans h2.2⟩

/-- `terminate` never touches the assembled matrices. -/
theorem terminate_mats (st : BackgroundMgr) (exch : LcExchange) (strategy : String)
    (p : BackgroundMgr × Option LcProcess)
    (h : st.terminate exch strategy = Except.ok p) : matsEq p.1 st := by
  revert h
  unfold BackgroundMgr.terminate
  split
  · intro h; cases h; exact ⟨rfl, rfl⟩
  · split
    · split
      · intro h; cases h; exact ⟨rfl, rfl⟩
      · split
        · intro h; cases h
        · intro h; cases h; exact ⟨rfl, rfl⟩
    · intro h; cases h; exact ⟨rfl, rfl⟩

/-- `_add_emission` never touches the assembled matrices. -/
theorem add_emission_mats (st : BackgroundMgr) (flow : LcFlow) (d : Direction)
    (p : BackgroundMgr × Emission)
    (h : st.add_emission flow d = Except.ok p) : matsEq p.1 st := by
  revert h
  unfold BackgroundMgr.add_emission
  split
  · split
    · intro h; cases h; exact ⟨rfl, rfl⟩
    · intro h; cases h
  · intro h; cases h; exact ⟨rfl, rfl⟩

/-- `add_cutoff` never touches the assembled matrices. -/
theorem add_cutoff_mats (st : BackgroundMgr) (parent : ProductFlow) (em : Emission)
    (v : ℚ) (st2 : BackgroundMgr)
    (h : st.add_cutoff parent em v = Except.ok st2) : matsEq st2 st := by
  revert h
  unfold BackgroundMgr.add_cutoff
  split
  · intro h; cases h
  · intro h; cases h; exact ⟨rfl, rfl⟩

/-- `add_interior` never touches the assembled matrices. -/
theorem add_interior_mats (st : BackgroundMgr) (parent t : ProductFlow)
    (v : ℚ) (st2 : BackgroundMgr)
    (h : st.add_interior parent t v = Except.ok st2) : matsEq st2 st := by
  revert h
  unfold BackgroundMgr.add_interior
  split
  · intro h; cases h
  · intro h; cases h; exact ⟨rfl, rfl⟩

/-- `_set_lowlink` never touches the assembled matrices. -/
theorem set_lowlink_mats (st : BackgroundMgr) (pf : ProductFlow) (low : Nat) :
    matsEq (st.set_lowlink pf low) st := by
  unfold BackgroundMgr.set_lowlink
  split <;> exact ⟨rfl, rfl⟩

/-- `_create_product_flow` never touches the assembled matrices. -/
theorem create_product_flow_mats (st : BackgroundMgr) (flow : LcFlow)
    (termination : LcProcess) (p : BackgroundMgr × ProductFlow)
    (h : st.create_product_flow flow termination = Except.ok p) : matsEq p.1 st := by
  unfold BackgroundMgr.create_product_flow at h
  obtain ⟨st2, h2, h3⟩ := except_bind_ok _ _ _ h
  revert h2
  unfold BackgroundMgr.add_product_flow
  intro h2
  obtain ⟨ts, _, h4⟩ := except_bind_ok _ _ _ h2
  cases h4
  cases h3
  refine matsEq_trans ⟨rfl, rfl⟩ ?_
  exact matsEq_trans (set_lowlink_mats _ _ _) ⟨rfl, rfl⟩

/-- The Tarjan child visit never touches the assembled matrices, provided the
recursion callback does not. -/
theorem tarjanVisit_mats
    (recurse : ProductFlow → BackgroundMgr → Except String BackgroundMgr)
    (hrec : ∀ i s s2, recurse i s = Except.ok s2 → matsEq s2 s)
    (parent : ProductFlow) (stx : BackgroundMgr) (flow : LcFlow) (t : LcProcess)
    (p : BackgroundMgr × ProductFlow)
    (h : tarjanVisit recurse parent stx flow t = Except.ok p) : matsEq p.1 stx := by
  revert h
  unfold tarjanVisit
  split
  · intro h; cases h
  · split
    · intro h; cases h
    · next ci heqci =>
      split
      · intro h; cases h
      · next st3 heqr =>
        split
        · intro h; cases h
        · next low heqlow =>
          intro h; cases h
          exact matsEq_trans (set_lowlink_mats _ _ _)
            (matsEq_trans (hrec _ _ _ heqr) (create_product_flow_mats _ _ _ _ heqci))
  · next i heqc =>
    split
    · split
      · intro h; cases h
      · intro h; cases h
        exact set_lowlink_mats _ _ _
    · intro h; cases h; exact ⟨rfl, rfl⟩

/-- One traversal exchange step never touches the assembled matrices, provided
the recursion callback does not. -/
theorem traverseOne_mats
    (recurse : ProductFlow → BackgroundMgr → Except String BackgroundMgr)
    (hrec : ∀ i s s2, recurse i s = Except.ok s2 → matsEq s2 s)
    (multi_term : String) (parent : ProductFlow) (rx : LcExchange)
    (st : BackgroundMgr) (exch : LcExchange) (st2 : BackgroundMgr)
    (h : traverseOne recurse multi_term parent rx st exch = Except.ok st2) :
    matsEq st2 st := by
  revert h
  unfold traverseOne
  split
  · intro h; cases h; exact ⟨rfl, rfl⟩
  · split
    · intro h; cases h; exact ⟨rfl, rfl⟩
    · split
      · intro h; cases h; exact ⟨rfl, rfl⟩
      · split
        · intro h; cases h
        · next st1 heqterm =>
          intro h
          have htm : matsEq st1 st :=
            terminate_mats _ _ _ _ heqterm
          split at h
          · cases h
          · next st2e emis heqem =>
            exact matsEq_trans (add_cutoff_mats _ _ _ _ _ h)
              (matsEq_trans (add_emission_mats _ _ _ _ heqem) htm)
        · next st1 t heqterm =>
          intro h
          have htm : matsEq st1 st :=
            terminate_mats _ _ _ _ heqterm
          split at h
          · cases h
          · next nx heqv =>
            exact matsEq_trans (add_interior_mats _ _ _ _ _ h)
              (matsEq_trans (tarjanVisit_mats recurse hrec _ _ _ _ _ heqv) htm)

/-- The traversal exchange loop never touches the assembled matrices, provided
the recursion callback does not. -/
theorem traverseList_mats
    (recurse : ProductFlow → BackgroundMgr → Except String BackgroundMgr)
    (hrec : ∀ i s s2, recurse i s = Except.ok s2 → matsEq s2 s)
    (multi_term : String) (parent : ProductFlow) (rx : LcExchange) :
    ∀ (exchs : List LcExchange) (st st2 : BackgroundMgr),
      traverseList recurse multi_term parent rx st exchs = Except.ok st2 →
      matsEq st2 st := by
  intro exchs
  induction exchs with
  | nil => intro st st2 h; cases h; exact ⟨rfl, rfl⟩
  | cons e es ih =>
    intro st st2 h
    unfold traverseList at h
    cases hone : traverseOne recurse multi_term parent rx st e with
    | error e2 => rw [hone] at h; simp at h
    | ok st1 =>
      rw [hone] at h
      replace h : traverseList recurse multi_term parent rx st1 es = Except.ok st2 := h
      exact matsEq_trans (ih _ _ h)
        (traverseOne_mats recurse hrec multi_term parent rx _ _ _ hone)

/-- `_traverse_term_exchanges` never touches the assembled matrices. -/
theorem traverse_mats (multi_term : String) (default_allocation : Option Nat) :
    ∀ (fuel : Nat) (parent : ProductFlow) (st st2 : BackgroundMgr),
      traverse_term_exchanges multi_term default_allocation fuel parent st =
        Except.ok st2 → matsEq st2 st := by
  intro fuel
  induction fuel with
  | zero => intro parent st st2 h; cases h
  | succ fuel ih =>
    intro parent st st2 h
    unfold traverse_term_exchanges at h
    split at h
    · cases h
    · split at h
      · cases h
      · next st1 heqlist =>
        have hm1 : matsEq st1 st :=
          traverseList_mats _ (fun i s s2 hc => ih i s s2 hc) multi_term parent _ _ _ _ heqlist
        split at h
        · cases h
        · split at h
          · cases h
          · split at h
            · split at h
              · cases h
              · cases h
                exact hm1
            · cases h
              exact hm1

/-- A successful Except-fold whose step preserves the matrices preserves them. -/
theorem foldlM_mats {α : Type} (f : BackgroundMgr → α → Except String BackgroundMgr)
    (hf : ∀ s a s2, f s a = Except.ok s2 → matsEq s2 s) :
    ∀ (l : List α) (s s2 : BackgroundMgr), l.foldlM f s = Except.ok s2 → matsEq s2 s := by
  intro l
  induction l with
  | nil =>
    intro s s2 h
    simp only [List.foldlM_nil] at h
    cases h; exact ⟨rfl, rfl⟩
  | cons a l ih =>
    intro s s2 h
    simp only [List.foldlM_cons] at h
    obtain ⟨s1, h1, h2⟩ := except_bind_ok _ _ _ h
    exact matsEq_trans (ih _ _ h2) (hf _ _ _ h1)

/-- `_add_ref_product` (create + traverse) never touches the matrices. -/
theorem add_ref_inner_mats (st : BackgroundMgr) (flow : LcFlow) (term : LcProcess)
    (mt : String) (da : Option Nat) (r : BackgroundMgr × ProductFlow)
    (h : st.add_ref_product_inner flow term mt da = Except.ok r) : matsEq r.1 st := by
  unfold BackgroundMgr.add_ref_product_inner at h
  obtain ⟨cj, hcj, h⟩ := except_bind_ok _ _ _ h
  obtain ⟨st1, hst1, h⟩ := except_bind_ok _ _ _ h
  cases h
  exact matsEq_trans (traverse_mats mt da _ _ _ _ hst1)
    (create_product_flow_mats _ _ _ _ hcj)

/-- When the A matrix is already present, `_update_component_graph` leaves
both matrices untouched. -/
theorem update_mats_of_some (st st2 : BackgroundMgr) (ha : st.a_matrix.isSome = true)
    (h : st.update_component_graph = Except.ok st2) : matsEq st2 st := by
  revert h
  unfold BackgroundMgr.update_component_graph
  split
  · intro h; cases h
  · next ts heq =>
    intro h
    unfold BackgroundMgr.update_finish at h
    rw [if_neg ?_] at h
    · cases h; exact ⟨rfl, rfl⟩
    · intro hcon
      rw [Option.isNone_iff_eq_none] at hcon
      rw [hcon.1] at ha
      cases ha

/-- `add_ref_product` on a manager whose A matrix is assembled leaves both
matrices untouched. -/
theorem add_ref_product_mats (st : BackgroundMgr) (flow : LcFlow) (term : LcProcess)
    (mt : String) (da : Option Nat) (r : BackgroundMgr × ProductFlow)
    (ha : st.a_matrix.isSome = true)
    (h : st.add_ref_product flow term mt da = Except.ok r) : matsEq r.1 st := by
  unfold BackgroundMgr.add_ref_product at h
  obtain ⟨jOpt, hchk, h⟩ := except_bind_ok _ _ _ h
  cases jOpt with
  | some j => cases h; exact ⟨rfl, rfl⟩
  | none =>
    obtain ⟨rj, hrj, h⟩ := except_bind_ok _ _ _ h
    obtain ⟨st2, hupd, h⟩ := except_bind_ok _ _ _ h
    cases h
    have hm1 : matsEq rj.1 st := add_ref_inner_mats _ _ _ _ _ _ hrj
    have ha1 : rj.1.a_matrix.isSome = true := by rw [hm1.1]; exact ha
    exact matsEq_trans (update_mats_of_some _ _ ha1 hupd) hm1

/-- `add_all_ref_products` on a manager whose A matrix is assembled leaves
both matrices untouched. -/
theorem add_all_mats (st : BackgroundMgr) (mt : String) (da : Option Nat)
    (st2 : BackgroundMgr) (ha : st.a_matrix.isSome = true)
    (h : st.add_all_ref_products mt da = Except.ok st2) : matsEq st2 st := by
  unfold BackgroundMgr.add_all_ref_products at h
  obtain ⟨st1, hfold, h⟩ := except_bind_ok _ _ _ h
  have hm1 : matsEq st1 st := by
    refine foldlM_mats _ ?_ _ _ _ hfold
    intro s p s2 hp
    refine foldlM_mats _ ?_ _ _ _ hp
    intro s1 x s3 hx
    obtain ⟨jOpt, hchk, hx⟩ := except_bind_ok _ _ _ hx
    cases jOpt with
    | some j => cases hx; exact ⟨rfl, rfl⟩
    | none =>
      obtain ⟨rj, hrj, hx⟩ := except_bind_ok _ _ _ hx
      cases hx
      exact add_ref_inner_mats _ _ _ _ _ _ hrj
  have ha1 : st1.a_matrix.isSome = true := by rw [hm1.1]; exact ha
  exact matsEq_trans (update_mats_of_some _ _ ha1 h) hm1

/-- Counterexample for C9: `_construct_a_matrix` has no double-assembly
guard — on the completed pair scenario, whose A and B matrices are both
assembled and whose interior is nonempty, invoking it again silently
succeeds and rewrites the A matrix, while `_construct_b_matrix` raises
the advertised ValueError. -/
theorem construct_a_no_guard_cex :
    bmPairDone.a_matrix = some [(0, 1, 3), (1, 0, 2)] ∧
    bmPairDone.b_matrix.isSome = true ∧
    bmPairDone.construct_a_matrix =
      Except.ok { bmPairDone with a_matrix := some [(0, 1, 3), (1, 0, 2)] } ∧
    bmPairDone.construct_b_matrix =
      Except.error ("ValueError: B matrix already specified!") := by
  refine ⟨?_, ?_, ?_, ?_⟩ <;> with_unfolding_all rfl

/-- C9 (amended): rebuilding B when already present raises; `_construct_a_matrix`
itself has no guard, but via the public operations construction happens only
when A is absent, so once A is assembled neither matrix is ever mutated by
`_update_component_graph`, `add_ref_product` or `add_all_ref_products`. -/
theorem assembly_freeze (st st2 : BackgroundMgr) (flow : LcFlow) (term : LcProcess)
    (mt : String) (da : Option Nat) (r : BackgroundMgr × ProductFlow) :
    (st.b_matrix.isSome = true →
      st.construct_b_matrix = Except.error ("ValueError: B matrix already specified!")) ∧
    (st.a_matrix.isSome = true → st.update_component_graph = Except.ok st2 →
      st2.a_matrix = st.a_matrix ∧ st2.b_matrix = st.b_matrix) ∧
    (st.a_matrix.isSome = true → st.add_ref_product flow term mt da = Except.ok r →
      r.1.a_matrix = st.a_matrix ∧ r.1.b_matrix = st.b_matrix) ∧
    (st.a_matrix.isSome = true → st.add_all_ref_products mt da = Except.ok st2 →
      st2.a_matrix = st.a_matrix ∧ st2.b_matrix = st.b_matrix) := by
  refine ⟨?_, ?_, ?_, ?_⟩
  · intro hb
    unfold BackgroundMgr.construct_b_matrix
    rw [if_pos hb]
  · intro ha h; exact update_mats_of_some st st2 ha h
  · intro ha h; exact add_ref_product_mats st flow term mt da r ha h
  · intro ha h; exact add_all_mats st mt da st2 ha h

/-- Witness for C9 on a concrete frozen manager. -/
theorem assembly_freeze_witness :
    bmFrozen.b_matrix.isSome = true ∧ bmFrozen.a_matrix.isSome = true ∧
    bmFrozen.update_component_graph = Except.ok bmFrozen ∧
    bmFrozen.add_all_ref_products "first" none = Except.ok bmFrozen ∧
    bmFrozen.construct_b_matrix =
      Except.error ("ValueError: B matrix already specified!") ∧
    (bmFrozen.a_matrix = bmFrozen.a_matrix ∧ bmFrozen.b_matrix = bmFrozen.b_matrix) :=
  ⟨by with_unfolding_all decide, by with_unfolding_all decide,
   by with_unfolding_all rfl, by with_unfolding_all rfl,
   (assembly_freeze bmFrozen bmFrozen flowSelf procSelf "first" none
      (bmFrozen, pfSelf)).1 (by with_unfolding_all decide),
   (assembly_freeze bmFrozen bmFrozen flowSelf procSelf "first" none
      (bmFrozen, pfSelf)).2.2.2 (by with_unfolding_all decide)
     (by with_unfolding_all rfl)⟩

/-- The running-maximum scan of `_set_background` either leaves its
accumulator untouched (no entry beats it) or returns the first entry
attaining the final maximum. -/
theorem maxSccLoop_spec :
    ∀ (l : List (Nat × List ProductFlow)) (ml : Nat) (ind : Option Nat),
      (maxSccLoop l ml ind = (ml, ind) ∧ ∀ p ∈ l, p.2.length ≤ ml) ∨
      (∃ pre i mem post, l = pre ++ (i, mem) :: post ∧
        maxSccLoop l ml ind = (mem.length, some i) ∧ ml < mem.length ∧
        (∀ p ∈ pre, p.2.length < mem.length) ∧
        (∀ p ∈ post, p.2.length ≤ mem.length)) := by
  intro l
  induction l with
  | nil => intro ml ind; exact Or.inl ⟨rfl, by simp⟩
  | cons kt rest ih =>
    intro ml ind
    obtain ⟨k, t⟩ := kt
    by_cases hlt : ml < t.length
    · rcases ih t.length (some k) with ⟨heq, hall⟩ |
        ⟨pre, i, mem, post, hsplit, heq, hml, hpre, hpost⟩
      · right
        refine ⟨[], k, t, rest, by simp, ?_, hlt, by simp, hall⟩
        show maxSccLoop ((k, t) :: rest) ml ind = (t.length, some k)
        unfold maxSccLoop
        rw [if_pos hlt, heq]
      · right
        refine ⟨(k, t) :: pre, i, mem, post, by rw [hsplit]; rfl, ?_,
          lt_trans hlt hml, ?_, hpost⟩
        · show maxSccLoop ((k, t) :: rest) ml ind = (mem.length, some i)
          unfold maxSccLoop
          rw [if_pos hlt, heq]
        · intro p hp
          rcases List.mem_cons.mp hp with hp | hp
          · rw [hp]; exact hml
          · exact hpre p hp
    · rcases ih ml ind with ⟨heq, hall⟩ |
        ⟨pre, i, mem, post, hsplit, heq, hml, hpre, hpost⟩
      · left
        refine ⟨?_, ?_⟩
        · unfold maxSccLoop
          rw [if_neg hlt, heq]
        · intro p hp
          rcases List.mem_cons.mp hp with hp | hp
          · have hpt : p.2.length = t.length := by rw [hp]
            rw [hpt]
            exact not_lt.mp hlt
          · exact hall p hp
      · right
        refine ⟨(k, t) :: pre, i, mem, post, by rw [hsplit]; rfl, ?_, hml, ?_, hpost⟩
        · show maxSccLoop ((k, t) :: rest) ml ind = (mem.length, some i)
          unfold maxSccLoop
          rw [if_neg hlt, heq]
        · intro p hp
          rcases List.mem_cons.mp hp with hp | hp
          · have hpt : p.2.length = t.length := by rw [hp]
            rw [hpt]
            exact lt_of_le_of_lt (not_lt.mp hlt) hml
          · exact hpre p hp

/-- Counterexample for C2: after `add_all_ref_products` on two disjoint
two-node cycles, both SCCs have the maximal size 2, the code elects SCC-id
2 (the first labelled), but the claimed lowest-id argmax is SCC-id 0. -/
theorem set_background_tiebreak_cex :
    (exVal runTwoCycles).map (fun st => st.tstack.background) = some (some 2) ∧
    (exVal runTwoCycles).map (fun st => claimedBackground st.tstack.sccs) =
      some (some 0) ∧
    (exVal runTwoCycles).map (fun st => st.tstack.sccs.map (fun p => (p.1, p.2.length))) =
      some [(2, 2), (0, 2)] ∧
    (some 2 : Option Nat) ≠ some 0 := by
  refine ⟨?_, ?_, ?_, by decide⟩ <;> with_unfolding_all decide

/-- C2 (amended): background selection keeps the state untouched when no SCC
has size above 1; otherwise it elects the first SCC, in dict insertion
(labelling) order, attaining the maximal size — which need not be the
lowest SCC-id. -/
theorem set_background_first_max (fuel : Nat) (ts ts2 : TarjanStack) :
    ((maxSccLoop ts.sccs 0 none).1 ≤ 1 → ts.set_background fuel = Except.ok ts) ∧
    (1 < (maxSccLoop ts.sccs 0 none).1 → ts.set_background fuel = Except.ok ts2 →
      ∃ pre i mem post, ts.sccs = pre ++ (i, mem) :: post ∧
        ts2.background = some i ∧ 1 < mem.length ∧
        (∀ p ∈ pre, p.2.length < mem.length) ∧
        (∀ p ∈ ts.sccs, p.2.length ≤ mem.length)) := by
  rcases maxSccLoop_spec ts.sccs 0 none with ⟨heq, _⟩ |
    ⟨pre, i, mem, post, hsplit, heq, _, hpre, hpost⟩
  · constructor
    · intro _
      unfold TarjanStack.set_background
      rw [heq]
      simp
    · intro hgt
      rw [heq] at hgt
      simp at hgt
  · constructor
    · intro hle
      rw [heq] at hle
      simp only at hle
      unfold TarjanStack.set_background
      rw [heq]
      rw [if_neg (by exact not_lt.mpr hle)]
    · intro hgt hrun
      rw [heq] at hgt
      simp only at hgt
      unfold TarjanStack.set_background at hrun
      rw [heq] at hrun
      rw [if_pos (by exact hgt)] at hrun
      replace hrun :
          (match set_downstream_rec ts.rows_by_col fuel i ts.downstream with
            | Except.error e => Except.error e
            | Except.ok ds =>
              Except.ok (TarjanStack.generate_bg_index
                { ts with background := some i, downstream := ds })) =
            Except.ok ts2 := hrun
      cases hds : set_downstream_rec ts.rows_by_col fuel i ts.downstream with
      | error e => rw [hds] at hrun; simp at hrun
      | ok ds =>
        rw [hds] at hrun
        replace hrun :
            Except.ok (TarjanStack.generate_bg_index
              { ts with background := some i, downstream := ds }) =
              Except.ok ts2 := hrun
        cases hrun
        refine ⟨pre, i, mem, post, hsplit, ?_, hgt, hpre, ?_⟩
        · rfl
        · intro p hp
          rw [hsplit] at hp
          rcases List.mem_append.mp hp with hp | hp
          · exact le_of_lt (hpre p hp)
          · rcases List.mem_cons.mp hp with hp | hp
            · rw [hp]
            · exact hpost p hp

/-- Witness for C2 (amended) on a concrete one-SCC stack. -/
theorem set_background_first_max_witness :
    1 < (maxSccLoop tsOneScc.sccs 0 none).1 ∧
    TarjanStack.set_background 1 tsOneScc = Except.ok tsOneSccResult ∧
    (∃ pre i mem post, tsOneScc.sccs = pre ++ (i, mem) :: post ∧
      tsOneSccResult.background = some i ∧ 1 < mem.length ∧
      (∀ p ∈ pre, p.2.length < mem.length) ∧
      (∀ p ∈ tsOneScc.sccs, p.2.length ≤ mem.length)) :=
  ⟨by with_unfolding_all decide, by with_unfolding_all rfl,
   (set_background_first_max 1 tsOneScc tsOneSccResult).2
     (by with_unfolding_all decide) (by with_unfolding_all rfl)⟩

/-- Looking up a key in the `dict((ind, n) for n, ind in enumerate(bg))`
association list succeeds exactly for members of `bg`. -/
theorem alookup_enumFrom_isSome :
    ∀ (l : List Nat) (n idx : Nat),
      (alookup ((List.enumFrom n l).map (fun p => (p.2, p.1))) idx).isSome = true ↔
        idx ∈ l := by
  intro l
  induction l with
  | nil => intro n idx; simp [alookup]
  | cons a l ih =>
    intro n idx
    by_cases ha : a = idx
    · simp [List.enumFrom, alookup, ha]
    · simp only [List.enumFrom, List.map_cons, alookup, if_neg ha, List.mem_cons]
      rw [ih (n + 1) idx]
      constructor
      · intro h; exact Or.inr h
      · intro h
        rcases h with h | h
        · exact absurd h.symm ha
        · exact h

/-- The fields of `_generate_bg_index` when a background is set. -/
theorem generate_bg_index_eq (ts : TarjanStack) (bg : Nat) (h : ts.background = some bg) :
    ts.generate_bg_index.bg_index =
      ((ts.background_flows.map (fun b => b.index)).enum.map (fun p => (p.2, p.1))) ∧
    ts.generate_bg_index.sccs = ts.sccs ∧
    ts.generate_bg_index.downstream = ts.downstream ∧
    ts.generate_bg_index.background = ts.background := by
  unfold TarjanStack.generate_bg_index
  split
  · next hbg => rw [h] at hbg; cases hbg
  · exact ⟨rfl, rfl, rfl, rfl⟩

/-- `background_flows` with a set background: background SCC members first,
then the members of every downstream SCC. -/
theorem background_flows_eq (ts : TarjanStack) (bg : Nat) (h : ts.background = some bg) :
    ts.background_flows = ts.scc bg ++ ts.downstream.flatMap (fun i => ts.scc i) := by
  unfold TarjanStack.background_flows
  split
  · next hbg => rw [h] at hbg; cases hbg
  · next bg2 hbg =>
    rw [h] at hbg
    cases hbg
    rfl

/-- Counterexample for C3: in the background-switch run, product-flow index 2
is a key of `bg_index` (is_background reports true), yet its SCC (id 2) is
neither the background SCC (id 3) nor reachable from it along `rows_by_col`
— the accumulated `_downstream` set kept SCC 2 from the earlier background. -/
theorem bg_index_reachability_cex :
    (exVal runSwitch).map (fun st => st.tstack.is_background 2) = some true ∧
    (exVal runSwitch).map (fun st => alookup st.tstack.scc_of ((2 : Nat), some 2)) =
      some (some 2) ∧
    (exVal runSwitch).map (fun st => st.tstack.background) = some (some 3) ∧
    (exVal runSwitch).map (fun st => st.tstack.rows_by_col) =
      some [(0, [0, 2]), (3, [3])] ∧
    ¬ ((2 : Nat) = 3 ∨ Relation.TransGen (graphStep [(0, [0, 2]), (3, [3])]) 3 2) := by
  refine ⟨?_, ?_, ?_, ?_, ?_⟩
  · with_unfolding_all decide
  · with_unfolding_all decide
  · with_unfolding_all decide
  · with_unfolding_all decide
  · intro hcon
    have hall : ∀ b, Relation.TransGen (graphStep [(0, [0, 2]), (3, [3])]) 3 b → b = 3 := by
      intro b htg
      induction htg with
      | single hs =>
        have hm : agetList [(0, [0, 2]), (3, [3])] 3 = [3] := by decide
        unfold graphStep at hs
        rw [hm] at hs
        simpa using hs
      | tail hab hbc ih =>
        rw [ih] at hbc
        have hm : agetList [(0, [0, 2]), (3, [3])] 3 = [3] := by decide
        unfold graphStep at hbc
        rw [hm] at hbc
        simpa using hbc
    rcases hcon with h | h
    · exact absurd h (by decide)
    · exact absurd (hall 2 h) (by decide)

/-- C3 (amended): after a background selection (some SCC has size above 1), a
product-flow index is a key of `bg_index` iff some product flow with that
index belongs to the background SCC or to one of the SCCs in the
accumulated `downstream` set (which is never cleared across selections, so
it can retain SCCs unreachable from the current background). -/
theorem bg_index_membership (fuel : Nat) (ts ts2 : TarjanStack)
    (hmax : 1 < (maxSccLoop ts.sccs 0 none).1)
    (hrun : ts.set_background fuel = Except.ok ts2) :
    ∃ bg, ts2.background = some bg ∧
      ∀ idx, (ts2.is_background idx = true ↔
        ∃ pf, pf.index = idx ∧
          (pf ∈ ts2.scc bg ∨ ∃ d ∈ ts2.downstream, pf ∈ ts2.scc d)) := by
  rcases maxSccLoop_spec ts.sccs 0 none with ⟨heq, _⟩ |
    ⟨pre, i, mem, post, hsplit, heq, _, hpre, hpost⟩
  · rw [heq] at hmax
    simp at hmax
  · unfold TarjanStack.set_background at hrun
    rw [heq] at hrun hmax
    rw [if_pos hmax] at hrun
    replace hrun :
        (match set_downstream_rec ts.rows_by_col fuel i ts.downstream with
          | Except.error e => Except.error e
          | Except.ok ds =>
            Except.ok (TarjanStack.generate_bg_index
              { ts with background := some i, downstream := ds })) =
          Except.ok ts2 := hrun
    cases hds : set_downstream_rec ts.rows_by_col fuel i ts.downstream with
    | error e => rw [hds] at hrun; simp at hrun
    | ok ds =>
      rw [hds] at hrun
      replace hrun :
          Except.ok (TarjanStack.generate_bg_index
            { ts with background := some i, downstream := ds }) =
            Except.ok ts2 := hrun
      cases hrun
      have hGen := generate_bg_index_eq
        { ts with background := some i, downstream := ds } i rfl
      have hBF := background_flows_eq
        { ts with background := some i, downstream := ds } i rfl
      refine ⟨i, rfl, ?_⟩
      intro idx
      unfold TarjanStack.is_background
      rw [hGen.1, List.enum]
      rw [alookup_enumFrom_isSome]
      rw [List.mem_map]
      unfold TarjanStack.scc
      rw [hGen.2.1, hGen.2.2.1]
      rw [hBF]
      constructor
      · rintro ⟨pf, hmem, hidx⟩
        refine ⟨pf, hidx, ?_⟩
        rcases List.mem_append.mp hmem with hm | hm
        · exact Or.inl hm
        · rcases List.mem_flatMap.mp hm with ⟨d, hd, hpf⟩
          exact Or.inr ⟨d, hd, hpf⟩
      · rintro ⟨pf, hidx, hmem⟩
        refine ⟨pf, ?_, hidx⟩
        rcases hmem with hm | ⟨d, hd, hpf⟩
        · exact List.mem_append.mpr (Or.inl hm)
        · exact List.mem_append.mpr (Or.inr (List.mem_flatMap.mpr ⟨d, hd, hpf⟩))

/-- Witness for C3 (amended) on a concrete one-SCC stack. -/
theorem bg_index_membership_witness :
    1 < (maxSccLoop tsOneScc.sccs 0 none).1 ∧
    TarjanStack.set_background 1 tsOneScc = Except.ok tsOneSccResult ∧
    (∃ bg, tsOneSccResult.background = some bg ∧
      ∀ idx, (tsOneSccResult.is_background idx = true ↔
        ∃ pf, pf.index = idx ∧
          (pf ∈ tsOneSccResult.scc bg ∨
            ∃ d ∈ tsOneSccResult.downstream, pf ∈ tsOneSccResult.scc d))) :=
  ⟨by with_unfolding_all decide, by with_unfolding_all rfl,
   bg_index_membership 1 tsOneScc tsOneSccResult (by with_unfolding_all decide)
     (by with_unfolding_all rfl)⟩

/-- Counterexample for C1: in the self-dependency scenario (reference value 1,
self-consumption 0.1) the traversal does record a pending interior entry
(parent, parent, 0.1) via `add_interior`, and the parent inbound magnitude
stays 1 — it is not reduced to 0.9. -/
theorem self_dependency_cex :
    (exVal runSelfTraversal).map (fun st => st.interior_incoming.map
      (fun e => (e.parent.index, e.term.index, e.value))) = some [(0, 0, 1 / 10)] ∧
    (exVal runSelfTraversal).map (fun st => st.pf_index.map
      (fun pf => pf.inbound_ev)) = some [1] ∧
    (exVal runSelf).map (fun r => r.1.foreground.map
      (fun e => (e.parent.index, e.term.index, e.value))) = some [(0, 0, 1 / 10)] ∧
    (exVal runSelf).map (fun r => r.1.pf_index.map (fun pf => pf.inbound_ev)) =
      some [1] ∧
    (1 : ℚ) ≠ 9 / 10 := by
  refine ⟨?_, ?_, ?_, ?_, ?_⟩ <;> with_unfolding_all decide

/-- C1 (amended): the traversal handles a self-dependency like any other
interior exchange — when the resolved child is the parent itself (already
on the stack), it lowers the parent lowlink to the parent index and records
an interior entry (parent, parent) with the direction-adjusted value
normalized by `inbound_ev`; the product-flow table (and hence `inbound_ev`)
is left unchanged. -/
theorem self_dependency_amended
    (recurse : ProductFlow → BackgroundMgr → Except String BackgroundMgr)
    (multi_term : String) (parent : ProductFlow) (rx exch : LcExchange)
    (st : BackgroundMgr) (v : ℚ) (t : LcProcess)
    (href : exch.is_reference = false)
    (hval : exchAllocValue exch rx = some v)
    (hv : ¬ v = 0)
    (hterm : st.terminate exch multi_term = Except.ok (st, some t))
    (hcheck : st.check_product_flow exch.flow (some t) = Except.ok (some parent))
    (hstack : st.tstack.check_stack parent = true)
    (hidx : st.index parent = Except.ok parent.index)
    (hev : ¬ parent.inbound_ev = 0) :
    traverseOne recurse multi_term parent rx st exch =
      Except.ok { (st.set_lowlink parent parent.index) with interior_incoming :=
        (st.set_lowlink parent parent.index).interior_incoming ++
          [⟨parent, parent,
            (if exch.direction = Direction.Output then -v else v) / parent.inbound_ev⟩] } ∧
    (st.set_lowlink parent parent.index).pf_index = st.pf_index := by
  constructor
  · unfold traverseOne
    simp only [href, Bool.false_eq_true, if_false, hval]
    rw [if_neg hv]
    simp only [hterm]
    unfold tarjanVisit
    simp only [hcheck]
    rw [if_pos hstack]
    simp only [hidx]
    unfold BackgroundMgr.add_interior
    rw [if_neg hev]
  · unfold BackgroundMgr.set_lowlink
    split <;> rfl

/-- Witness for C1 (amended) at the concrete self-dependency mid-state. -/
theorem self_dependency_amended_witness :
    exchSelfLoop.is_reference = false ∧
    exchAllocValue exchSelfLoop rxSelf = some (1 / 10) ∧
    ¬ (1 / 10 : ℚ) = 0 ∧
    bmSelfMid.terminate exchSelfLoop "first" = Except.ok (bmSelfMid, some procSelf) ∧
    bmSelfMid.check_product_flow exchSelfLoop.flow (some procSelf) =
      Except.ok (some pfSelf) ∧
    bmSelfMid.tstack.check_stack pfSelf = true ∧
    bmSelfMid.index pfSelf = Except.ok pfSelf.index ∧
    ¬ pfSelf.inbound_ev = 0 ∧
    (traverseOne (fun _ s => Except.ok s) "first" pfSelf rxSelf bmSelfMid exchSelfLoop =
      Except.ok { (bmSelfMid.set_lowlink pfSelf pfSelf.index) with interior_incoming :=
        (bmSelfMid.set_lowlink pfSelf pfSelf.index).interior_incoming ++
          [⟨pfSelf, pfSelf,
            (if exchSelfLoop.direction = Direction.Output then -(1 / 10) else (1 / 10)) /
              pfSelf.inbound_ev⟩] } ∧
     (bmSelfMid.set_lowlink pfSelf pfSelf.index).pf_index = bmSelfMid.pf_index) :=
  ⟨rfl, rfl, by with_unfolding_all decide, by with_unfolding_all rfl,
   by with_unfolding_all rfl, by with_unfolding_all decide, by with_unfolding_all rfl,
   by with_unfolding_all decide,
   self_dependency_amended (fun _ s => Except.ok s) "first" pfSelf rxSelf exchSelfLoop
     bmSelfMid (1 / 10) procSelf rfl rfl (by with_unfolding_all decide)
     (by with_unfolding_all rfl) (by with_unfolding_all rfl)
     (by with_unfolding_all decide) (by with_unfolding_all rfl)
     (by with_unfolding_all decide)⟩

/-- Counterexample for C7: in the two-node-cycle run, the pending interior
entries sit in discovery order (parent 1 first), but after integration the
final `_interior` list holds them reversed — the entry recorded first comes
last. -/
theorem interior_order_cex :
    (exVal runPairTraversal).map (fun st => st.interior_incoming.map
      (fun e => (e.parent.index, e.term.index))) = some [(1, 0), (0, 1)] ∧
    (exVal runPair).map (fun st => st.interior.map
      (fun e => (e.parent.index, e.term.index))) = some [(0, 1), (1, 0)] ∧
    ((1, 0) : Nat × Nat) ≠ (0, 1) := by
  refine ⟨?_, ?_, by decide⟩ <;> with_unfolding_all decide

/-- C7 (amended): each integration step appends the pending interior entries
in reverse discovery order (the drain pops from the end of the pending
list), routed by background parenthood, while the cutoff list remains a
sublist of the recorded order (only filtering ever touches it). -/
theorem update_reverses_interior (st1 st2 : BackgroundMgr)
    (hupd : st1.update_component_graph = Except.ok st2) :
    ∃ ts, st1.tstack.add_to_graph pyRecursionLimit st1.interior_incoming = Except.ok ts ∧
      st2.interior = st1.interior ++
        st1.interior_incoming.reverse.filter (fun k => ts.is_background k.parent.index) ∧
      st2.foreground = st1.foreground ++
        st1.interior_incoming.reverse.filter (fun k => !(ts.is_background k.parent.index)) ∧
      st2.cutoff.Sublist st1.cutoff :=
  update_routes st1 st2 hupd

/-- Witness for C7 (amended) on the concrete pair scenario. -/
theorem update_reverses_interior_witness :
    bmPairMid.update_component_graph = Except.ok bmPairDone ∧
    (∃ ts, bmPairMid.tstack.add_to_graph pyRecursionLimit bmPairMid.interior_incoming =
        Except.ok ts ∧
      bmPairDone.interior = bmPairMid.interior ++
        bmPairMid.interior_incoming.reverse.filter
          (fun k => ts.is_background k.parent.index) ∧
      bmPairDone.foreground = bmPairMid.foreground ++
        bmPairMid.interior_incoming.reverse.filter
          (fun k => !(ts.is_background k.parent.index)) ∧
      bmPairDone.cutoff.Sublist bmPairMid.cutoff) :=
  ⟨by with_unfolding_all rfl,
   update_reverses_interior bmPairMid bmPairDone (by with_unfolding_all rfl)⟩

theorem dot_cons (r x : ℚ) (rs xs : List ℚ) :
    dotL (r :: rs) (x :: xs) = r * x + dotL rs xs := by
  simp [dotL]

theorem dot_vadd (row : List ℚ) : ∀ (u v : List ℚ), u.length = v.length →
    dotL row (vadd u v) = dotL row u + dotL row v := by
  induction row with
  | nil => intro u v _; simp [dotL]
  | cons r rs ih =>
    intro u v h
    cases u with
    | nil =>
      cases v with
      | nil => simp [dotL, vadd]
      | cons b vs => simp at h
    | cons a us =>
      cases v with
      | nil => simp at h
      | cons b vs =>
        have hlen : us.length = vs.length := by simpa using h
        rw [show vadd (a :: us) (b :: vs) = (a + b) :: vadd us vs from rfl]
        rw [dot_cons, dot_cons, dot_cons, ih us vs hlen]
        ring

theorem dot_zero (row : List ℚ) : ∀ n : Nat, dotL row (zeroVec n) = 0 := by
  induction row with
  | nil => intro n; simp [dotL]
  | cons r rs ih =>
    intro n
    cases n with
    | zero => simp [dotL, zeroVec]
    | succ m =>
      rw [show zeroVec (m + 1) = 0 :: zeroVec m from rfl, dot_cons, ih m]
      ring

theorem matvec_vadd (A : List (List ℚ)) (u v : List ℚ) (h : u.length = v.length) :
    matvec A (vadd u v) = vadd (matvec A u) (matvec A v) := by
  induction A with
  | nil => rfl
  | cons row A ih =>
    show dotL row (vadd u v) :: matvec A (vadd u v) =
      vadd (dotL row u :: matvec A u) (dotL row v :: matvec A v)
    rw [show vadd (dotL row u :: matvec A u) (dotL row v :: matvec A v) =
      (dotL row u + dotL row v) :: vadd (matvec A u) (matvec A v) from rfl]
    rw [dot_vadd row u v h, ih]

theorem matvec_zero (A : List (List ℚ)) (n : Nat) :
    matvec A (zeroVec n) = zeroVec A.length := by
  induction A with
  | nil => rfl
  | cons row A ih =>
    show dotL row (zeroVec n) :: matvec A (zeroVec n) = zeroVec (A.length + 1)
    rw [dot_zero row n, ih]
    rfl

theorem matvec_length (A : List (List ℚ)) (x : List ℚ) :
    (matvec A x).length = A.length := by
  simp [matvec]

theorem vadd_length (u v : List ℚ) :
    (vadd u v).length = min u.length v.length := by
  simp [vadd]

theorem zeroVec_length (n : Nat) : (zeroVec n).length = n := by
  simp [zeroVec]

theorem vsub_self_vec (v : List ℚ) : vsub v v = zeroVec v.length := by
  induction v with
  | nil => rfl
  | cons a as ih =>
    show (a - a) :: vsub as as = zeroVec (as.length + 1)
    rw [ih, sub_self]
    rfl

theorem vsub_vadd_vadd : ∀ (p q r s : List ℚ), p.length = q.length →
    p.length = r.length → p.length = s.length →
    vsub (vadd p q) (vadd r s) = vadd (vsub p r) (vsub q s) := by
  intro p
  induction p with
  | nil =>
    intro q r s hq hr hs
    cases q with
    | nil =>
      cases r with
      | nil =>
        cases s with
        | nil => rfl
        | cons e es => simp at hs
      | cons d ds => simp at hr
    | cons c cs => simp at hq
  | cons a as ih =>
    intro q r s hq hr hs
    cases q with
    | nil => simp at hq
    | cons c cs =>
      cases r with
      | nil => simp at hr
      | cons d ds =>
        cases s with
        | nil => simp at hs
        | cons e es =>
          have h1 : as.length = cs.length := by simpa using hq
          have h2 : as.length = ds.length := by simpa using hr
          have h3 : as.length = es.length := by simpa using hs
          show (a + c - (d + e)) :: vsub (vadd as cs) (vadd ds es) =
            (a - d + (c - e)) :: vadd (vsub as ds) (vsub cs es)
          rw [ih cs ds es h1 h2 h3]
          congr 1
          ring

theorem vadd_vsub_cancel : ∀ (a x y : List ℚ), a.length = x.length →
    a.length = y.length → vadd (vsub a x) (vsub x y) = vsub a y := by
  intro a
  induction a with
  | nil =>
    intro x y hx hy
    cases x with
    | nil =>
      cases y with
      | nil => rfl
      | cons c cs => simp at hy
    | cons b bs => simp at hx
  | cons p ps ih =>
    intro x y hx hy
    cases x with
    | nil => simp at hx
    | cons b bs =>
      cases y with
      | nil => simp at hy
      | cons c cs =>
        have h1 : ps.length = bs.length := by simpa using hx
        have h2 : ps.length = cs.length := by simpa using hy
        show (p - b + (b - c)) :: vadd (vsub ps bs) (vsub bs cs) =
          (p - c) :: vsub ps cs
        rw [ih bs cs h1 h2]
        congr 1
        ring

theorem vsub_vsub_cancel : ∀ (a x : List ℚ), a.length = x.length →
    vsub (vsub a x) a = x.map (fun q => -q) := by
  intro a
  induction a with
  | nil =>
    intro x hx
    cases x with
    | nil => rfl
    | cons b bs => simp at hx
  | cons p ps ih =>
    intro x hx
    cases x with
    | nil => simp at hx
    | cons b bs =>
      have h1 : ps.length = bs.length := by simpa using hx
      show (p - b - p) :: vsub (vsub ps bs) ps = -b :: bs.map (fun q => -q)
      rw [ih bs h1]
      congr 1
      ring

theorem l1norm_neg (x : List ℚ) : l1norm (x.map (fun q => -q)) = l1norm x := by
  induction x with
  | nil => rfl
  | cons a as ih =>
    show |(-a)| + l1norm (as.map (fun q => -q)) = |a| + l1norm as
    rw [abs_neg, ih]

theorem l1norm_nonneg (x : List ℚ) : 0 ≤ l1norm x := by
  induction x with
  | nil => exact le_refl 0
  | cons a as ih =>
    exact add_nonneg (abs_nonneg a) ih

theorem partialSumIncs_one (A : List (List ℚ)) (x : List ℚ) :
    partialSumIncs A x 1 = l1norm (matvec A x) := by
  simp [partialSumIncs, iterMatvec]

theorem partialSumIncs_shift (A : List (List ℚ)) (x : List ℚ) :
    ∀ j : Nat, partialSumIncs A x (j + 1) =
      l1norm (matvec A x) + partialSumIncs A (matvec A x) j := by
  intro j
  induction j with
  | zero =>
    rw [partialSumIncs_one]
    show _ = l1norm (matvec A x) + 0
    rw [add_zero]
  | succ j ih =>
    show partialSumIncs A x (j + 1) + l1norm (iterMatvec A (j + 2) x) = _
    rw [ih, show iterMatvec A (j + 2) x = iterMatvec A (j + 1) (matvec A x) from rfl]
    show _ = l1norm (matvec A x) +
      (partialSumIncs A (matvec A x) j + l1norm (iterMatvec A (j + 1) (matvec A x)))
    ring

theorem partialSumIncs_mono (A : List (List ℚ)) (x : List ℚ) (j : Nat) :
    ∀ k : Nat, j ≤ k → partialSumIncs A x j ≤ partialSumIncs A x k := by
  intro k
  induction k with
  | zero => intro h; rw [Nat.le_zero.mp h]
  | succ k ih =>
    intro h
    rcases Nat.lt_or_ge j (k + 1) with hlt | hge
    · have : j ≤ k := Nat.lt_succ_iff.mp hlt
      refine le_trans (ih this) ?_
      show partialSumIncs A x k ≤ partialSumIncs A x k + l1norm (iterMatvec A (k + 1) x)
      exact le_add_of_nonneg_right (l1norm_nonneg _)
    · rw [Nat.le_antisymm h hge]

theorem lci_loop_bound (A B : List (List ℚ)) (threshold : ℚ) (ad : List ℚ)
    (n : Nat) (hA : A.length = n) (had : ad.length = n) (hthr : 0 ≤ threshold)
    (S : ℚ) :
    ∀ (k : Nat) (x total : List ℚ) (sumtotal : ℚ),
      x.length = n → total.length = n →
      vsub total (matvec A total) = vsub ad x →
      0 ≤ sumtotal →
      (∀ j : Nat, j ≤ k → sumtotal + partialSumIncs A x j ≤ S) →
      (compute_bg_lci_loop A B threshold k x total sumtotal).converged = true →
      l1norm (lciResidual A ad
          (compute_bg_lci_loop A B threshold k x total sumtotal).total) ≤
        threshold * S := by
  intro k
  induction k with
  | zero =>
    intro x total sumtotal _ _ _ _ _ hconv
    exact absurd hconv (by simp [compute_bg_lci_loop])
  | succ k ih =>
    intro x total sumtotal hx htot hinv hsum hS
    have hxlen : total.length = x.length := htot.trans hx.symm
    have htot1 : (vadd total x).length = n := by
      rw [vadd_length, htot, hx]
      exact min_self n
    have hAx : (matvec A x).length = n := by rw [matvec_length, hA]
    have hAtot : (matvec A total).length = n := by rw [matvec_length, hA]
    have hinv1 : vsub (vadd total x) (matvec A (vadd total x)) =
        vsub ad (matvec A x) := by
      rw [matvec_vadd A total x hxlen]
      rw [vsub_vadd_vadd total x (matvec A total) (matvec A x)
        (htot.trans hx.symm) (htot.trans hAtot.symm) (htot.trans hAx.symm)]
      rw [hinv]
      exact vadd_vsub_cancel ad x (matvec A x) (had.trans hx.symm)
        (had.trans hAx.symm)
    have hres : lciResidual A ad (vadd total x) = (matvec A x).map (fun q => -q) := by
      unfold lciResidual
      rw [hinv1]
      exact vsub_vsub_cancel ad (matvec A x) (had.trans hAx.symm)
    have hS0 : 0 ≤ S := by
      have h0 := hS 0 (Nat.zero_le _)
      rw [show partialSumIncs A x 0 = 0 from rfl, add_zero] at h0
      exact le_trans hsum h0
    intro hconv
    unfold compute_bg_lci_loop at hconv ⊢
    by_cases hz : l1norm (matvec A x) = 0
    · rw [if_pos hz] at hconv ⊢
      show l1norm (lciResidual A ad (vadd total x)) ≤ threshold * S
      rw [hres, l1norm_neg, hz]
      exact mul_nonneg hthr hS0
    · rw [if_neg hz] at hconv ⊢
      by_cases hbr : l1norm (matvec A x) / (sumtotal + l1norm (matvec A x)) < threshold
      · rw [if_pos hbr] at hconv ⊢
        show l1norm (lciResidual A ad (vadd total x)) ≤ threshold * S
        rw [hres, l1norm_neg]
        have hpos : 0 < sumtotal + l1norm (matvec A x) :=
          add_pos_of_nonneg_of_pos hsum
            (lt_of_le_of_ne (l1norm_nonneg _) (Ne.symm hz))
        have hlt : l1norm (matvec A x) <
            threshold * (sumtotal + l1norm (matvec A x)) :=
          (div_lt_iff₀ hpos).mp hbr
        have hle : sumtotal + l1norm (matvec A x) ≤ S := by
          have h1 := hS 1 (Nat.succ_le_succ (Nat.zero_le _))
          rw [partialSumIncs_one] at h1
          exact h1
        exact le_of_lt (lt_of_lt_of_le hlt
          (mul_le_mul_of_nonneg_left hle hthr))
      · rw [if_neg hbr] at hconv ⊢
        refine ih (matvec A x) (vadd total x) (sumtotal + l1norm (matvec A x))
          hAx htot1 hinv1 (add_nonneg hsum (l1norm_nonneg _)) ?_ hconv
        intro j hj
        have := hS (j + 1) (Nat.succ_le_succ hj)
        rw [partialSumIncs_shift A x j] at this
        rw [add_assoc]
        exact this

set_option maxRecDepth 40000 in
/-- Counterexample for C8: with `A* = [[2/3]]` and `ad = [1]`, the solver
converges under the default parameters, but the residual of the total it
returns exceeds `threshold * l1norm ad` — the break test compares the
increment against the accumulated total mass, not against `ad`. -/
theorem lci_threshold_cex :
    (compute_bg_lci [[(2 : ℚ)/3]] [[0]] [1] defaultThreshold defaultCount).converged
      = true ∧
    ¬ (l1norm (lciResidual [[(2 : ℚ)/3]] [1]
        (compute_bg_lci [[(2 : ℚ)/3]] [[0]] [1] defaultThreshold defaultCount).total) ≤
      defaultThreshold * l1norm [1]) := by
  constructor
  · with_unfolding_all decide
  · with_unfolding_all decide

/-- C8 (amended): when the solver converges, the residual
`(I − A*)·total − ad` is bounded in 1-norm by `threshold` times the total
increment mass `Σ_{i=1..count} l1norm (A*^i · ad)` accumulated in
`sumtotal` — not by `threshold * l1norm ad`. -/
theorem lci_residual_bound (A B : List (List ℚ)) (ad : List ℚ) (threshold : ℚ)
    (count : Nat) (n : Nat) (hA : A.length = n) (had : ad.length = n)
    (hthr : 0 ≤ threshold)
    (hconv : (compute_bg_lci A B ad threshold count).converged = true) :
    l1norm (lciResidual A ad (compute_bg_lci A B ad threshold count).total) ≤
      threshold * partialSumIncs A ad count := by
  unfold compute_bg_lci at hconv ⊢
  refine lci_loop_bound A B threshold ad n hA had hthr
    (partialSumIncs A ad count) count ad (zeroVec ad.length) 0 had ?_ ?_
    (le_refl 0) ?_ hconv
  · rw [zeroVec_length, had]
  · rw [matvec_zero A ad.length, hA, ← had]
    rw [vsub_self_vec ad, vsub_self_vec (zeroVec ad.length), zeroVec_length]
  · intro j hj
    rw [zero_add]
    exact partialSumIncs_mono A ad j count hj

set_option maxRecDepth 40000 in
/-- Witness for C8 (amended): `A* = [[1/2]]`, `ad = [1]`, defaults. -/
theorem lci_residual_bound_witness :
    [[(1 : ℚ)/2]].length = 1 ∧ [(1 : ℚ)].length = 1 ∧ (0 : ℚ) ≤ defaultThreshold ∧
    (compute_bg_lci [[(1 : ℚ)/2]] [[0]] [1] defaultThreshold defaultCount).converged
      = true ∧
    l1norm (lciResidual [[(1 : ℚ)/2]] [1]
      (compute_bg_lci [[(1 : ℚ)/2]] [[0]] [1] defaultThreshold defaultCount).total) ≤
      defaultThreshold * partialSumIncs [[(1 : ℚ)/2]] [1] defaultCount :=
  ⟨rfl, rfl, by with_unfolding_all decide,
   by with_unfolding_all decide,
   lci_residual_bound [[(1 : ℚ)/2]] [[0]] [1] defaultThreshold defaultCount 1
     rfl rfl (by with_unfolding_all decide) (by with_unfolding_all decide)⟩
